import Mathlib

/-!
Verification of the loop-generation engine of `audio_loop_gen`.

The Python sources under `audio_loop_gen/` are shallowly embedded:
pure numeric routines become Lean functions over `ℚ` samples, Python
exceptions become `Except PyExc`, numpy arrays become lists (channels
first).  External signal-analysis capabilities (librosa, BeatNet,
numpy FFT) are parameters of the embedding, as the specification's
pluggable `SignalAnalysis` interface prescribes.
-/

set_option autoImplicit false

namespace AudioLoopGen

/-- Python exception kinds relevant to the embedded code.  `valueError`,
`typeError` and `indexError` mirror the builtin exception classes; any
other exception an external analysis capability may raise is
`otherError`. -/
inductive PyExc where
  | valueError : PyExc
  | typeError : PyExc
  | indexError : PyExc
  | otherError : PyExc
deriving DecidableEq, Repr

/-- Python's `int(q)` on a rational value: truncation toward zero,
i.e. the truncating division of the numerator by the denominator. -/
def pyInt (q : ℚ) : ℤ := q.num / (q.den : ℤ)

lemma pyInt_intCast (n : ℤ) : pyInt (n : ℚ) = n := by
  simp [pyInt]

/-- `np.linspace(a, b, n)`: `n` evenly spaced values from `a` to `b`
inclusive (a single `a` when `n = 1`, empty when `n = 0`). -/
def linspaceQ (a b : ℚ) (n : ℕ) : List ℚ :=
  if n ≤ 1 then (List.range n).map (fun _ => a)
  else (List.range n).map (fun (i : ℕ) => a + (b - a) * (i : ℚ) / ((n : ℚ) - 1))

/-- Python sequence slicing `l[s:e]` (negative indices wrap from the
end, indices past the end clamp). -/
def pySlice {α : Type} (l : List α) (s e : ℤ) : List α :=
  (l.take ((if e < 0 then max ((l.length : ℤ) + e) 0 else min e l.length).toNat)).drop
    ((if s < 0 then max ((l.length : ℤ) + s) 0 else min s l.length).toNat)

/-- Element access `a[i]` for a sample list (all uses in the embedded
code are in bounds; out-of-bounds reads default to `0`). -/
def atQ (a : List ℚ) (i : ℕ) : ℚ := a.getD i 0

/-! ### `util.nearest_zero_crossing`

Source: `audio_loop_gen/util.py`, `nearest_zero_crossing`.  A crossing
at index `i` means `audio_data[i] * audio_data[i-1] <= 0`; the returned
index is `i` or `i-1`, whichever sample has the strictly smaller
magnitude (ties go to `i-1`). -/

/-- The sign-change test `audio_data[i] * audio_data[i-1] <= 0` from the
source's scan loops. -/
def zcCross (a : List ℚ) (i : ℕ) : Prop := atQ a i * atQ a (i - 1) ≤ 0

instance (a : List ℚ) (i : ℕ) : Decidable (zcCross a i) := by
  unfold zcCross; infer_instance

/-- The tie-break `i if abs(audio_data[i]) < abs(audio_data[i-1]) else i-1`
applied once a crossing at `i` is found. -/
def zcPick (a : List ℚ) (i : ℕ) : ℤ :=
  if |atQ a i| < |atQ a (i - 1)| then (i : ℤ) else (i : ℤ) - 1

/-- Fuelled body of the rightward scan; the fuel is the number of loop
iterations left, so the recursion is structural and computable. -/
def scanRightGo (a : List ℚ) : ℕ → ℕ → Option ℕ
  | 0, _ => none
  | (fuel + 1), i =>
    if i < a.length then
      if zcCross a i then some i else scanRightGo a fuel (i + 1)
    else none

/-- The rightward scan `for i in range(start, len(audio_data))`: first
index `i ≥ start` with a sign change, if any. -/
def scanRight (a : List ℚ) (i : ℕ) : Option ℕ :=
  scanRightGo a (a.length - i) i

/-- The leftward scan `for i in range(start-1, 0, -1)` of the source,
with its early break once `dist >= 0 and start_index - i >= dist`.  The
argument is the current loop index; the scan runs down to `1`. -/
def scanLeft (a : List ℚ) (sIdx dist : ℤ) : ℕ → Option ℕ
  | 0 => none
  | (i + 1) =>
    if dist ≥ 0 ∧ sIdx - ((i : ℤ) + 1) ≥ dist then none
    else if zcCross a (i + 1) then some (i + 1)
    else scanLeft a sIdx dist i

/-- `util.nearest_zero_crossing(audio_data, start_index)`. -/
def nearestZeroCrossing (a : List ℚ) (sIdx : ℤ) : ℤ :=
  if sIdx ≥ (a.length : ℤ) then -1
  else
    match scanRight a (if sIdx > 0 then sIdx else 1).toNat with
    | some i =>
      if (if sIdx > 0 then sIdx else 1) > 1 then
        match scanLeft a sIdx ((i : ℤ) - sIdx)
            ((if sIdx > 0 then sIdx else 1).toNat - 1) with
        | some j => zcPick a j
        | none => zcPick a i
      else zcPick a i
    | none =>
      if (if sIdx > 0 then sIdx else 1) > 1 then
        match scanLeft a sIdx (-1) ((if sIdx > 0 then sIdx else 1).toNat - 1) with
        | some j => zcPick a j
        | none => -1
      else -1

lemma scanRightGo_eq_none (a : List ℚ) (fuel : ℕ) : ∀ (i : ℕ),
    (∀ j, i ≤ j → j < a.length → ¬ zcCross a j) →
    scanRightGo a fuel i = none := by
  induction fuel with
  | zero => intro i h; rfl
  | succ n ih =>
    intro i h
    unfold scanRightGo
    split
    · rename_i hlt
      rw [if_neg (h i le_rfl hlt)]
      exact ih (i + 1) (fun j hj hjl => h j (by omega) hjl)
    · rfl

lemma scanRight_eq_none (a : List ℚ) (i : ℕ)
    (h : ∀ j, i ≤ j → j < a.length → ¬ zcCross a j) :
    scanRight a i = none :=
  scanRightGo_eq_none a _ i h

lemma scanRightGo_eq_some (a : List ℚ) (fuel : ℕ) : ∀ (i k : ℕ),
    i ≤ k → k < a.length → zcCross a k →
    (∀ j, i ≤ j → j < k → ¬ zcCross a j) →
    a.length - i ≤ fuel →
    scanRightGo a fuel i = some k := by
  induction fuel with
  | zero => intro i k hik hk _ _ hfuel; omega
  | succ n ih =>
    intro i k hik hk hcross hmin hfuel
    unfold scanRightGo
    rw [if_pos (lt_of_le_of_lt hik hk)]
    rcases eq_or_lt_of_le hik with heq | hlt
    · subst heq
      rw [if_pos hcross]
    · rw [if_neg (hmin i le_rfl hlt)]
      exact ih (i + 1) k hlt hk hcross
        (fun j hj hjl => hmin j (by omega) hjl) (by omega)

lemma scanRight_eq_some (a : List ℚ) (i k : ℕ)
    (hik : i ≤ k) (hk : k < a.length) (hcross : zcCross a k)
    (hmin : ∀ j, i ≤ j → j < k → ¬ zcCross a j) :
    scanRight a i = some k :=
  scanRightGo_eq_some a _ i k hik hk hcross hmin le_rfl

lemma scanLeft_eq_none (a : List ℚ) (sIdx dist : ℤ) (i : ℕ)
    (h : ∀ j, 1 ≤ j → j ≤ i → ¬ zcCross a j) :
    scanLeft a sIdx dist i = none := by
  induction i with
  | zero => rfl
  | succ n ih =>
    unfold scanLeft
    split
    · rfl
    · rw [if_neg (h (n + 1) (by omega) le_rfl)]
      exact ih (fun j hj hjl => h j hj (by omega))

/-- C9 (amended): (1) for an array whose only sign change straddles
index `k`, started at any index below `k` the search returns `k` or
`k-1`, whichever sample has the smaller magnitude; (2) when the array
has no sign change anywhere, the search returns `-1`.  (The original
claim's second part — returning `-1` already when no change exists at
or after the scan start — fails: the leftward scan is unbounded when
the rightward scan found nothing, see the counterexample.) -/
theorem nearest_zero_crossing_spec :
    (∀ (a : List ℚ) (k : ℕ) (sIdx : ℤ), 1 ≤ k → k < a.length →
      (∀ i : ℕ, i < a.length → 1 ≤ i → (zcCross a i ↔ i = k)) →
      sIdx < (k : ℤ) →
      nearestZeroCrossing a sIdx =
        (if |atQ a k| < |atQ a (k - 1)| then (k : ℤ) else (k : ℤ) - 1)) ∧
    (∀ (a : List ℚ) (sIdx : ℤ),
      (∀ i : ℕ, i < a.length → 1 ≤ i → ¬ zcCross a i) →
      nearestZeroCrossing a sIdx = -1) := by
  constructor
  · intro a k sIdx hk1 hk2 huniq hs
    have hlen : ¬ sIdx ≥ (a.length : ℤ) := by omega
    have hcrossk : zcCross a k := (huniq k hk2 hk1).mpr rfl
    unfold nearestZeroCrossing
    rw [if_neg hlen]
    by_cases hpos : sIdx > 0
    · rw [if_pos hpos]
      have hright : scanRight a sIdx.toNat = some k :=
        scanRight_eq_some a sIdx.toNat k (by omega) hk2 hcrossk
          (fun j hj hjk hc => absurd ((huniq j (by omega) (by omega)).mp hc)
            (by omega))
      split
      · rename_i i heq
        rw [hright] at heq
        obtain h := Option.some.inj heq
        subst h
        split
        · rename_i hgt
          split
          · rename_i j heqL
            rw [scanLeft_eq_none a sIdx ((k : ℤ) - sIdx) (sIdx.toNat - 1)
              (fun m hm1 hm2 hc =>
                absurd ((huniq m (by omega) hm1).mp hc) (by omega))] at heqL
            exact absurd heqL (by simp)
          · rfl
        · rfl
      · rename_i heq
        rw [hright] at heq
        exact absurd heq (by simp)
    · rw [if_neg hpos]
      have hright : scanRight a ((1 : ℤ)).toNat = some k :=
        scanRight_eq_some a ((1 : ℤ)).toNat k (by omega) hk2 hcrossk
          (fun j hj hjk hc => absurd ((huniq j (by omega) (by omega)).mp hc)
            (by omega))
      split
      · rename_i i heq
        rw [hright] at heq
        obtain h := Option.some.inj heq
        subst h
        split
        · rename_i hgt
          exact absurd hgt (by omega)
        · rfl
      · rename_i heq
        rw [hright] at heq
        exact absurd heq (by simp)
  · intro a sIdx hnone
    unfold nearestZeroCrossing
    split
    · rfl
    · rename_i hlen
      by_cases hpos : sIdx > 0
      · rw [if_pos hpos]
        have hright : scanRight a sIdx.toNat = none :=
          scanRight_eq_none a sIdx.toNat
            (fun j hj hjl => hnone j hjl (by omega))
        split
        · rename_i i heq
          rw [hright] at heq
          exact absurd heq (by simp)
        · split
          · rename_i hgt
            split
            · rename_i j heqL
              rw [scanLeft_eq_none a sIdx (-1) (sIdx.toNat - 1)
                (fun m hm1 hm2 => hnone m (by omega) hm1)] at heqL
              exact absurd heqL (by simp)
            · rfl
          · rfl
      · rw [if_neg hpos]
        have hright : scanRight a ((1 : ℤ)).toNat = none :=
          scanRight_eq_none a ((1 : ℤ)).toNat
            (fun j hj hjl => hnone j hjl (by omega))
        split
        · rename_i i heq
          rw [hright] at heq
          exact absurd heq (by simp)
        · split
          · rename_i hgt
            exact absurd hgt (by omega)
          · rfl

/-- Witness for `nearest_zero_crossing_spec`: `[2, -1, -1, -1]` has its
only sign change straddling index 1 and the search from 0 returns 1
(the smaller-magnitude side); `[1, 2, 3]` has no sign change and the
search returns -1. -/
theorem nearest_zero_crossing_spec_witness :
    nearestZeroCrossing [(2 : ℚ), -1, -1, -1] 0 = 1 ∧
    nearestZeroCrossing [(1 : ℚ), 2, 3] 0 = -1 := by
  constructor
  · have h := nearest_zero_crossing_spec.1 [(2 : ℚ), -1, -1, -1] 1 0
      (by norm_num) (by norm_num)
      (by
        intro i hi h1
        simp only [List.length_cons, List.length_nil] at hi
        interval_cases i <;> simp [zcCross, atQ])
      (by norm_num)
    rw [h]
    norm_num [atQ]
  · exact nearest_zero_crossing_spec.2 [(1 : ℚ), 2, 3] 0
      (by
        intro i hi h1
        simp only [List.length_cons, List.length_nil] at hi
        interval_cases i <;> simp [zcCross, atQ])

/-- Counterexample to C9 as stated: in `[1, -1, -2, -3]` the only sign
change straddles index 1; a search started at index 2 finds no change
at or after its start, yet returns 0 (the left neighbour of the
crossing found by the unbounded leftward scan), not -1. -/
theorem nearest_zero_crossing_claim_false :
    (∀ i : ℕ, i < 4 → 2 ≤ i → ¬ zcCross [(1 : ℚ), -1, -2, -3] i) ∧
    nearestZeroCrossing [(1 : ℚ), -1, -2, -3] 2 = 0 := by
  constructor
  · intro i hi h2
    interval_cases i <;> simp [zcCross, atQ]
  · have h2 : (2 : ℤ).toNat = 2 := rfl
    norm_num [nearestZeroCrossing, scanRight, scanRightGo, scanLeft,
      zcCross, zcPick, atQ, List.getD, h2]

/-! ### Buffers and the crossfade/fade primitives

Source: `audio_loop_gen/util.py` (`AudioData`, `equal_power_crossfade`,
`fade_in`, `fade_out`).  A numpy array is either 1-D (mono) or a
channels-first `(2, N)` stereo array; both stereo rows share the
length `N`, and `shape[1]` on a 1-D array raises `IndexError`.

The equal-power curves are `cos`/`sin` of `t = linspace(min*pi/2,
max*pi/2, n)`; since `linspace` is linear, `t = (pi/2) * linspace(min,
max, n)` exactly, so the embedding carries the rational coordinates
`u = linspace(min, max, n)` and evaluates the curves through parameters
`cosHalfPi`/`sinHalfPi`, which stand for `u ↦ cos(u*pi/2)` and
`u ↦ sin(u*pi/2)` of the external numeric library. -/

/-- A numpy sample array: 1-D mono or channels-first stereo. -/
inductive NDArray where
  | one : List ℚ → NDArray
  | two : List ℚ → List ℚ → NDArray
deriving DecidableEq, Repr

/-- `util.AudioData`: samples plus sample rate. -/
structure AudioData where
  data : NDArray
  sample_rate : ℕ
deriving DecidableEq, Repr

/-- One channel of the tail-into-head crossfade: keep the first
`len - n` samples, then blend `tail * fade_out + head * fade_in`. -/
def channelCrossfade (fadeInC fadeOutC : List ℚ) (n : ℕ) (c : List ℚ) : List ℚ :=
  c.take (c.length - n) ++
    List.zipWith (fun x y => x + y)
      (List.zipWith (fun s f => s * f) (c.drop (c.length - n)) fadeOutC)
      (List.zipWith (fun s f => s * f) (c.take n) fadeInC)

/-- `util.equal_power_crossfade(audio_data, sample_rate,
crossfade_duration_ms, min_level, max_level)`. -/
def equalPowerCrossfade (cosHalfPi sinHalfPi : ℚ → ℚ) (a : NDArray)
    (sampleRate durMs : ℕ) (minLevel maxLevel : ℚ) : Except PyExc NDArray :=
  match a with
  | .one _ => .error .indexError
  | .two c1 c2 =>
    let n : ℕ := sampleRate * durMs / 1000
    if c1.length / 2 ≤ n then .error .valueError
    else
      let u := linspaceQ minLevel maxLevel n
      let fadeOutC := u.map cosHalfPi
      let fadeInC := u.map sinHalfPi
      .ok (.two (channelCrossfade fadeInC fadeOutC n c1)
                (channelCrossfade fadeInC fadeOutC n c2))

/-- One channel of `util.fade_in`: scale the first `n` samples by the
ramp. -/
def channelFadeIn (fade : List ℚ) (n : ℕ) (c : List ℚ) : List ℚ :=
  List.zipWith (fun s f => s * f) (c.take n) fade ++ c.drop n

/-- One channel of `util.fade_out`: scale the last `n` samples by the
ramp. -/
def channelFadeOut (fade : List ℚ) (n : ℕ) (c : List ℚ) : List ℚ :=
  c.take (c.length - n) ++
    List.zipWith (fun s f => s * f) (c.drop (c.length - n)) fade

/-- `util.fade_in` on a channels-first array (numpy raises a broadcast
`ValueError` when the ramp is longer than the array). -/
def fadeInArr (a : NDArray) (sampleRate durMs : ℕ) (minLevel maxLevel : ℚ) :
    Except PyExc NDArray :=
  match a with
  | .one _ => .error .indexError
  | .two c1 c2 =>
    let n : ℕ := sampleRate * durMs / 1000
    if c1.length < n then .error .valueError
    else
      let fade := linspaceQ minLevel maxLevel n
      .ok (.two (channelFadeIn fade n c1) (channelFadeIn fade n c2))

/-- `util.fade_out` on a channels-first array. -/
def fadeOutArr (a : NDArray) (sampleRate durMs : ℕ) (minLevel maxLevel : ℚ) :
    Except PyExc NDArray :=
  match a with
  | .one _ => .error .indexError
  | .two c1 c2 =>
    let n : ℕ := sampleRate * durMs / 1000
    if c1.length < n then .error .valueError
    else
      let fade := linspaceQ maxLevel minLevel n
      .ok (.two (channelFadeOut fade n c1) (channelFadeOut fade n c2))

/-! ### The orchestrator `loopgen.LoopGenerator`

Source: `audio_loop_gen/loopgen.py`.  A strategy instance is abstracted
by its memoized `evaluate()` outcome and its `create_loop()` outcome
(each either a value or a raised exception); the orchestrator logic over
those outcomes is embedded exactly.  `params.strategy_id` is the one
mutable field of `LoopGenParams` the engine touches: it both pins the
candidate set and records the winner.  A strategy class's `strategy_id`
attribute is an `Option String`: the base class sets `strategy_id: str
= None` (`base.py:14`), and a subclass that does not override it — as
`TransientAligned` does not — inherits `none`. -/

/-- A constructed strategy instance, abstracted to its `strategy_id`
class attribute and the outcomes of its two capabilities. -/
structure StrategyBehavior where
  strategy_id : Option String
  evalR : Except PyExc Bool
  createR : Except PyExc AudioData

/-- The `for strategy in self.__strategies` loop of
`LoopGenerator.generate`: first strategy whose `evaluate()` returns
true wins; its `create_loop()` result is taken and
`params.strategy_id` is set to `strategy.strategy_id` — the class
attribute, which is `None` for a class that never defines it. -/
def generateLoop (strategies : List StrategyBehavior) (sid : Option String) :
    Except PyExc (Option AudioData × Option String) :=
  match strategies with
  | [] => .ok (none, sid)
  | s :: rest =>
    match s.evalR with
    | .error e => .error e
    | .ok true =>
      match s.createR with
      | .error e => .error e
      | .ok loop => .ok (some loop, s.strategy_id)
    | .ok false => generateLoop rest sid

/-- `LoopGenerator.generate`: the strategy loop followed by the optional
final global equal-power crossfade (`CROSSFADE_DURATION_MS = 1000`,
`min_level=0.25`, `max_level=0.75`). -/
def generate (cosHalfPi sinHalfPi : ℚ → ℚ) (crossfade : Bool)
    (strategies : List StrategyBehavior) (sid : Option String) :
    Except PyExc (Option AudioData × Option String) :=
  match generateLoop strategies sid with
  | .error e => .error e
  | .ok (none, sid2) => .ok (none, sid2)
  | .ok (some loop, sid2) =>
    if crossfade then
      match equalPowerCrossfade cosHalfPi sinHalfPi loop.data
          loop.sample_rate 1000 0.25 0.75 with
      | .error e => .error e
      | .ok wav => .ok (some (AudioData.mk wav loop.sample_rate), sid2)
    else .ok (some loop, sid2)

/-- The `strategy_id` attributes of the ordered default candidate
classes of `LoopGenerator.__prepare_strategies` — `BeatDetect`,
`TransientAligned`, `CrossFade` (`FadeInOut` is commented out in the
source).  `BeatDetect` and `CrossFade` define their identifiers;
`TransientAligned` defines none and inherits the base class's `None`
(`base.py:14`). -/
def defaultStrategyIds : List (Option String) :=
  [some "BeatDetect", none, some "CrossFade"]

/-- The filter `(not self.__params.strategy_id) or stype.strategy_id ==
self.__params.strategy_id` (Python falsiness: `None` and the empty
string keep every candidate; `None == pin` is false for a truthy pin,
so a class without its own `strategy_id` never matches one). -/
def pinAllows (sid : Option String) (strategyId : Option String) : Bool :=
  match sid with
  | none => true
  | some p => p = "" || strategyId = some p

/-- `LoopGenerator.__prepare_strategies`: instantiate, in order, every
default strategy class whose `strategy_id` attribute passes the pin
filter.  The constructed instance's behaviour is a function of its
class (keyed here by the attribute, which is distinct per class),
supplied by `behav`. -/
def prepareStrategies
    (behav : Option String → (Except PyExc Bool) × Except PyExc AudioData)
    (sid : Option String) : List StrategyBehavior :=
  (defaultStrategyIds.filter (fun s => pinAllows sid s)).map
    (fun s => ⟨s, (behav s).1, (behav s).2⟩)

lemma generateLoop_all_false (strategies : List StrategyBehavior)
    (sid : Option String)
    (h : ∀ s ∈ strategies, s.evalR = Except.ok false) :
    generateLoop strategies sid = .ok (none, sid) := by
  induction strategies with
  | nil => rfl
  | cons s rest ih =>
    unfold generateLoop
    rw [h s (by simp)]
    exact ih (fun t ht => h t (by simp [ht]))

/-- C1: when every candidate's `evaluate()` returns false (including the
vacuous case of an empty candidate list), `generate` returns the empty
result `None` and raises nothing; `params.strategy_id` is untouched. -/
theorem generate_all_unsuitable_returns_none
    (cosHalfPi sinHalfPi : ℚ → ℚ) (crossfade : Bool)
    (strategies : List StrategyBehavior) (sid : Option String)
    (h : ∀ s ∈ strategies, s.evalR = Except.ok false) :
    generate cosHalfPi sinHalfPi crossfade strategies sid = .ok (none, sid) := by
  unfold generate
  rw [generateLoop_all_false strategies sid h]

/-- Witness for `generate_all_unsuitable_returns_none`: one unsuitable
candidate, crossfade enabled. -/
theorem generate_all_unsuitable_returns_none_witness :
    generate (fun q => q) (fun q => q) true
      [⟨some "BeatDetect", Except.ok false, Except.error PyExc.valueError⟩]
      none = .ok (none, none) :=
  generate_all_unsuitable_returns_none _ _ true _ none (by simp)

/-- Counterexample to C5 as stated: `"TransientAligned"` is one of the
three default strategy names, yet pinning it yields an empty candidate
list, not the promised singleton — the class never defines
`strategy_id`, so the inherited `None` (`base.py:14`) never equals the
pin. -/
theorem pinned_strategy_claim_false :
    prepareStrategies
      (fun _ => (Except.ok false, Except.error PyExc.valueError))
      (some "TransientAligned") = [] := rfl

/-- C5 (amended): pinning `params.strategy_id` isolates exactly one
candidate for the identifiers a default class actually defines
(`"BeatDetect"` and `"CrossFade"`), and a false `evaluate()` then
yields the empty result without consulting any other strategy; pinning
`"TransientAligned"` instead yields an empty candidate list —
`TransientAligned` inherits `strategy_id = None` from `LoopStrategy`
(`base.py:14`), which never equals a truthy pin — and `generate`
returns the empty result having consulted no strategy at all. -/
theorem pinned_strategy_isolation
    (behav : Option String → (Except PyExc Bool) × Except PyExc AudioData) :
    (∀ sid : String, some sid ∈ defaultStrategyIds →
      (prepareStrategies behav (some sid)).map StrategyBehavior.strategy_id =
        [some sid] ∧
      ((behav (some sid)).1 = Except.ok false →
        ∀ (cosHalfPi sinHalfPi : ℚ → ℚ) (crossfade : Bool),
          generate cosHalfPi sinHalfPi crossfade
            (prepareStrategies behav (some sid)) (some sid) =
            .ok (none, some sid))) ∧
    prepareStrategies behav (some "TransientAligned") = [] ∧
    (∀ (cosHalfPi sinHalfPi : ℚ → ℚ) (crossfade : Bool),
      generate cosHalfPi sinHalfPi crossfade
        (prepareStrategies behav (some "TransientAligned"))
        (some "TransientAligned") =
        .ok (none, some "TransientAligned")) := by
  have hTA : prepareStrategies behav (some "TransientAligned") = [] := rfl
  refine ⟨?_, hTA, ?_⟩
  · intro sid hmem
    have hmem' : sid = "BeatDetect" ∨ sid = "CrossFade" := by
      simpa [defaultStrategyIds] using hmem
    have hlist : prepareStrategies behav (some sid) =
        [⟨some sid, (behav (some sid)).1, (behav (some sid)).2⟩] := by
      rcases hmem' with rfl | rfl <;> rfl
    refine ⟨by rw [hlist]; rfl, ?_⟩
    intro hfalse cosHalfPi sinHalfPi crossfade
    rw [hlist]
    exact generate_all_unsuitable_returns_none _ _ _ _ _ (by simp [hfalse])
  · intro cosHalfPi sinHalfPi crossfade
    rw [hTA]
    exact generate_all_unsuitable_returns_none _ _ _ _ _ (by simp)

/-- Witness for `pinned_strategy_isolation`: pinning `"CrossFade"`
(whose `evaluate()` fails) isolates it and yields the empty result;
pinning `"TransientAligned"` leaves no candidates and also yields the
empty result. -/
theorem pinned_strategy_isolation_witness :
    (prepareStrategies
        (fun _ => (Except.ok false, Except.error PyExc.valueError))
        (some "CrossFade")).map StrategyBehavior.strategy_id =
      [some "CrossFade"] ∧
    generate (fun q => q) (fun q => q) true
      (prepareStrategies
        (fun _ => (Except.ok false, Except.error PyExc.valueError))
        (some "CrossFade")) (some "CrossFade") =
      .ok (none, some "CrossFade") ∧
    generate (fun q => q) (fun q => q) true
      (prepareStrategies
        (fun _ => (Except.ok false, Except.error PyExc.valueError))
        (some "TransientAligned")) (some "TransientAligned") =
      .ok (none, some "TransientAligned") := by
  have h := pinned_strategy_isolation
    (fun _ => (Except.ok false, Except.error PyExc.valueError))
  have h1 := h.1 "CrossFade" (by simp [defaultStrategyIds])
  exact ⟨h1.1, h1.2 rfl _ _ true, h.2.2 _ _ true⟩

lemma generateLoop_some (strategies : List StrategyBehavior)
    (sid sid2 : Option String) (loop : AudioData)
    (h : generateLoop strategies sid = .ok (some loop, sid2)) :
    ∃ pre s post, strategies = pre ++ s :: post ∧
      (∀ t ∈ pre, t.evalR = Except.ok false) ∧
      s.evalR = Except.ok true ∧
      s.createR = Except.ok loop ∧
      sid2 = s.strategy_id := by
  induction strategies with
  | nil => exact absurd h (by simp [generateLoop])
  | cons s rest ih =>
    unfold generateLoop at h
    match heval : s.evalR with
    | .error e => rw [heval] at h; exact absurd h (by simp)
    | .ok true =>
      rw [heval] at h
      match hcreate : s.createR with
      | .error e => rw [hcreate] at h; exact absurd h (by simp)
      | .ok lp =>
        rw [hcreate] at h
        have hinj := Except.ok.inj h
        have h1 : some lp = some loop := congrArg Prod.fst hinj
        have h2 : s.strategy_id = sid2 := congrArg Prod.snd hinj
        have hlp : lp = loop := by simpa using h1
        refine ⟨[], s, rest, rfl, by simp, heval, ?_, h2.symm⟩
        rw [hcreate, hlp]
    | .ok false =>
      rw [heval] at h
      obtain ⟨pre, st, post, hsplit, hpre, he, hc, hs⟩ := ih h
      exact ⟨s :: pre, st, post, by rw [hsplit]; rfl,
        fun t ht => by
          rcases List.mem_cons.mp ht with h' | h'
          · rw [h']; exact heval
          · exact hpre t h',
        he, hc, hs⟩

/-- Counterexample to C6 as stated: with no pin, the default candidate
list is BeatDetect (unsuitable here), TransientAligned, CrossFade; the
winning TransientAligned produces the non-empty result, but the
recorded `params.strategy_id` is `None` — the base-class attribute it
inherits (`base.py:14`) — not an identifier of the producing
strategy. -/
theorem strategy_id_claim_false :
    generate (fun q => q) (fun q => q) false
      (prepareStrategies
        (fun s => (Except.ok s.isNone,
          Except.ok ⟨NDArray.two [1, 2] [3, 4], 4⟩)) none) none =
      .ok (some ⟨NDArray.two [1, 2] [3, 4], 4⟩, none) := rfl

/-- C6 (amended): whenever `generate` returns a non-empty result, the
recorded `params.strategy_id` is the winning strategy's `strategy_id`
class attribute — the strategy's identifier for the classes that define
one (`BeatDetect`, `CrossFade`), but the inherited `None` when
`TransientAligned` wins, since it never defines the attribute. -/
theorem generate_result_strategy_id
    (cosHalfPi sinHalfPi : ℚ → ℚ) (crossfade : Bool)
    (strategies : List StrategyBehavior) (sid sid2 : Option String)
    (buf : AudioData)
    (h : generate cosHalfPi sinHalfPi crossfade strategies sid =
      .ok (some buf, sid2)) :
    ∃ pre s post, strategies = pre ++ s :: post ∧
      (∀ t ∈ pre, t.evalR = Except.ok false) ∧
      s.evalR = Except.ok true ∧
      sid2 = s.strategy_id ∧
      ∃ raw, s.createR = Except.ok raw ∧
        ((crossfade = false ∧ buf = raw) ∨
         (crossfade = true ∧ ∃ wav,
            equalPowerCrossfade cosHalfPi sinHalfPi raw.data raw.sample_rate
              1000 0.25 0.75 = .ok wav ∧ buf = ⟨wav, raw.sample_rate⟩)) := by
  unfold generate at h
  match hloop : generateLoop strategies sid with
  | .error e => rw [hloop] at h; exact absurd h (by simp)
  | .ok (none, sidx) => rw [hloop] at h; exact absurd h (by simp)
  | .ok (some loop, sidx) =>
    rw [hloop] at h
    obtain ⟨pre, s, post, hsplit, hpre, he, hc, hs⟩ :=
      generateLoop_some strategies sid sidx loop hloop
    refine ⟨pre, s, post, hsplit, hpre, he, ?_, loop, hc, ?_⟩
    · cases crossfade with
      | false =>
        simp only [Bool.false_eq_true, if_false] at h
        obtain h2 := congrArg Prod.snd (Except.ok.inj h)
        simp at h2
        rw [← h2, hs]
      | true =>
        simp only [if_true] at h
        match hcf : equalPowerCrossfade cosHalfPi sinHalfPi loop.data
            loop.sample_rate 1000 0.25 0.75 with
        | .error e => rw [hcf] at h; exact absurd h (by simp)
        | .ok wav =>
          rw [hcf] at h
          obtain h2 := congrArg Prod.snd (Except.ok.inj h)
          simp at h2
          rw [← h2, hs]
    · cases crossfade with
      | false =>
        simp only [Bool.false_eq_true, if_false] at h
        obtain h1 := congrArg Prod.fst (Except.ok.inj h)
        simp at h1
        exact Or.inl ⟨rfl, h1.symm⟩
      | true =>
        simp only [if_true] at h
        match hcf : equalPowerCrossfade cosHalfPi sinHalfPi loop.data
            loop.sample_rate 1000 0.25 0.75 with
        | .error e => rw [hcf] at h; exact absurd h (by simp)
        | .ok wav =>
          rw [hcf] at h
          obtain h1 := congrArg Prod.fst (Except.ok.inj h)
          simp at h1
          exact Or.inr ⟨rfl, wav, rfl, h1.symm⟩

/-- Witness for `generate_result_strategy_id`: a two-strategy run where
the second candidate — one without a `strategy_id` of its own — wins,
and the recorded value is its attribute `none` (crossfade disabled
leaves the raw loop). -/
theorem generate_result_strategy_id_witness :
    ∃ pre s post,
      ([⟨some "BeatDetect", Except.ok false, Except.error PyExc.valueError⟩,
        ⟨none, Except.ok true,
          Except.ok ⟨NDArray.two [1, 2] [3, 4], 4⟩⟩] :
          List StrategyBehavior) = pre ++ s :: post ∧
      (∀ t ∈ pre, t.evalR = Except.ok false) ∧
      s.evalR = Except.ok true ∧
      (none : Option String) = s.strategy_id ∧
      ∃ raw, s.createR = Except.ok raw ∧
        ((false = false ∧ (⟨NDArray.two [1, 2] [3, 4], 4⟩ : AudioData) = raw) ∨
         (false = true ∧ ∃ wav,
            equalPowerCrossfade (fun q => q) (fun q => q) raw.data
              raw.sample_rate 1000 0.25 0.75 = .ok wav ∧
            (⟨NDArray.two [1, 2] [3, 4], 4⟩ : AudioData) = ⟨wav, raw.sample_rate⟩)) :=
  generate_result_strategy_id (fun q => q) (fun q => q) false _ none
    none ⟨NDArray.two [1, 2] [3, 4], 4⟩ rfl

/-! ### `loop_strategy/beat_detect.py` — the BeatDetect strategy

Beat tracking itself is the external BeatNet capability; its outcome
(an ordered list of `(time_in_seconds, beat_label)` rows, label `1`
marking downbeats) or the exception it raises is a parameter.  The
strategy's own logic — `__get_loop_points` and the `evaluate` wrapper
with its `except ValueError` clause — is embedded exactly. -/

/-- `2 ** floor(log2 n)` for `n ≥ 1`, computed by halving (`fuel`-based
so that it is structurally recursive); the largest power of two that is
at most `n`. -/
def lp2Go : ℕ → ℕ → ℕ
  | 0, _ => 1
  | (fuel + 1), n => if n < 2 then 1 else 2 * lp2Go fuel (n / 2)

/-- `int(2 ** np.floor(np.log2(num_bars)))` from `__get_loop_points`. -/
def evenNumBars (n : ℕ) : ℕ := lp2Go n n

/-- The downbeat times `beats[:, 0][beats[:, 1] == 1]` of
`__get_loop_points`. -/
def downbeatTimes (beats : List (ℚ × ℕ)) : List ℚ :=
  (beats.filter (fun b => b.2 = 1)).map Prod.fst

/-- `BeatDetect.__get_loop_points(beats)`: `num_bars` is the number of
downbeats minus one; fewer than one complete bar raises `ValueError`;
otherwise the loop runs from the first downbeat to downbeat index
`even_num_bars`. -/
def getLoopPoints (beats : List (ℚ × ℕ)) : Except PyExc (ℚ × ℚ) :=
  if ((downbeatTimes beats).length : ℤ) - 1 < 1 then .error .valueError
  else
    .ok ((downbeatTimes beats).headD 0,
      (downbeatTimes beats).getD (evenNumBars ((downbeatTimes beats).length - 1)) 0)

/-- `BeatDetect.evaluate()`: the beat estimation and loop-point
extraction run inside `try/except ValueError`; only that exception class
is converted to an unsuitable (false) outcome.  The result carries the
memoized `(suitable, __loop_start, __loop_end)` state, loop ends in
samples via `int(time * sample_rate)`. -/
def beatDetectEvaluate (beatsR : Except PyExc (List (ℚ × ℕ)))
    (sampleRate : ℕ) (minLoopDuration : ℤ) : Except PyExc (Bool × ℤ × ℤ) :=
  match beatsR with
  | .error .valueError => .ok (false, -1, -1)
  | .error e => .error e
  | .ok beats =>
    match getLoopPoints beats with
    | .error .valueError => .ok (false, -1, -1)
    | .error e => .error e
    | .ok (startTime, endTime) =>
      if 0 ≤ startTime ∧ 0 ≤ endTime then
        if minLoopDuration ≤ pyInt ((endTime - startTime) * 1000) then
          .ok (true, pyInt (startTime * sampleRate), pyInt (endTime * sampleRate))
        else .ok (false, -1, -1)
      else .ok (false, -1, -1)

/-- `LoopGenerator.__init__` scales the params' `min_duration` by 1000
before handing it to every strategy as `min_loop_duration`. -/
def minLoopDurationOf (minDuration : ℤ) : ℤ := minDuration * 1000

/-! ### `util.find_similar_endpoints` — used by TransientAligned

`librosa.frames_to_samples` (default `hop_length=512`) and the
mel-spectrogram Pearson similarity `util.spectral_similarity` are
external analysis capabilities; the latter is the parameter `simF`
(raising `ValueError` exactly when a window is too short, per its
embedded guard).  The zero-crossing snapping reuses
`nearestZeroCrossing` above. -/

/-- `librosa.frames_to_samples(f)` with the default hop length 512
(external capability, modelled from its documentation). -/
def framesToSamples (f : ℕ) : ℤ := (f : ℤ) * 512

/-- The inner candidate-end loop of `find_similar_endpoints`, over the
remaining values of `j`; `.ok none` is Python's `break` out of the inner
loop (or its exhaustion), after which the outer loop continues. -/
def fseInner (simF : ℤ → ℤ → Except PyExc ℚ) (audio : List ℚ)
    (frames : List ℕ) (thr : ℚ) (start : ℤ) :
    List ℕ → Except PyExc (Option (ℤ × ℤ))
  | [] => .ok none
  | j :: js =>
    if 0 ≤ nearestZeroCrossing audio
        (framesToSamples (frames.getD (frames.length - 1 - j) 0)) then
      match simF start (nearestZeroCrossing audio
          (framesToSamples (frames.getD (frames.length - 1 - j) 0))) with
      | .ok sim =>
        if thr < sim then
          if 0 ≤ start ∧ 0 ≤ nearestZeroCrossing audio
              (framesToSamples (frames.getD (frames.length - 1 - j) 0)) then
            .ok (some (start, nearestZeroCrossing audio
              (framesToSamples (frames.getD (frames.length - 1 - j) 0))))
          else fseInner simF audio frames thr start js
        else fseInner simF audio frames thr start js
      | .error .valueError => .ok none
      | .error err => .error err
    else .ok none

/-- The outer candidate-start loop of `find_similar_endpoints`; a start
that fails zero-crossing snapping breaks the outer loop and the function
returns `(-1, -1)`. -/
def fseOuter (simF : ℤ → ℤ → Except PyExc ℚ) (audio : List ℚ)
    (frames : List ℕ) (thr : ℚ) : List ℕ → Except PyExc (ℤ × ℤ)
  | [] => .ok (-1, -1)
  | i :: is =>
    if 0 ≤ nearestZeroCrossing audio (framesToSamples (frames.getD i 0)) then
      match fseInner simF audio frames thr
          (nearestZeroCrossing audio (framesToSamples (frames.getD i 0)))
          (List.range (min (frames.length - 1 - i) 120)) with
      | .error e => .error e
      | .ok (some res) => .ok res
      | .ok none => fseOuter simF audio frames thr is
    else .ok (-1, -1)

/-- `util.find_similar_endpoints(audio_data, sample_rate, frames,
threshold=0.8, max_frames=120)`. -/
def findSimilarEndpoints (simF : ℤ → ℤ → Except PyExc ℚ) (audio : List ℚ)
    (frames : List ℕ) (thr : ℚ) : Except PyExc (ℤ × ℤ) :=
  fseOuter simF audio frames thr (List.range (min (frames.length - 1) 120))

/-- `TransientAligned.__calculate_transients_threshold`: the three
normalised features are combined externally into `combined_metric`; the
mapping into `[5, 15]` is `int(5 + (15 - 5) * combined_metric)`. -/
def transientThreshold (combinedMetric : ℚ) : ℤ :=
  pyInt (5 + (15 - 5) * combinedMetric)

/-- `TransientAligned.evaluate()`: no `try/except` of its own — an
exception from the transient detection propagates.  Transient detection
outcome, combined feature metric and spectral similarity are the
external-capability parameters. -/
def transientAlignedEvaluate (transientsR : Except PyExc (List ℕ))
    (combinedMetric : ℚ) (simF : ℤ → ℤ → Except PyExc ℚ) (audio : List ℚ)
    (sampleRate : ℕ) (minLoopDuration : ℤ) : Except PyExc (Bool × ℤ × ℤ) :=
  match transientsR with
  | .error e => .error e
  | .ok transients =>
    if transients.length < 2 then .ok (false, -1, -1)
    else if transientThreshold combinedMetric < (transients.length : ℤ) then
      match findSimilarEndpoints simF audio transients (8/10) with
      | .error e => .error e
      | .ok (ls, le) =>
        if ls < 0 ∨ le < 0 then .ok (false, -1, -1)
        else if (minLoopDuration : ℚ) ≤ ((le - ls : ℤ) : ℚ) / sampleRate * 1000 then
          .ok (true, ls, le)
        else .ok (false, -1, -1)
    else .ok (false, -1, -1)

/-- C2 counterexample: an exception that is not a `ValueError` raised by
the beat analysis propagates out of `BeatDetect.evaluate()` — the
`except ValueError` clause does not catch it, so `evaluate()` can
raise. -/
theorem evaluate_can_raise :
    beatDetectEvaluate (Except.error PyExc.otherError) 44100 20000 =
      Except.error PyExc.otherError := rfl

lemma fseInner_all_valueError (simF : ℤ → ℤ → Except PyExc ℚ)
    (audio : List ℚ) (frames : List ℕ) (thr : ℚ) (start : ℤ)
    (js : List ℕ) (hsim : ∀ s e, simF s e = Except.error PyExc.valueError) :
    fseInner simF audio frames thr start js = .ok none := by
  cases js with
  | nil => rfl
  | cons j js =>
    unfold fseInner
    split
    · rw [hsim]
    · rfl

/-- C2 (amended): `ValueError` — and only `ValueError` — raised during
the analysis is converted to an unsuitable outcome instead of
propagating: a `ValueError` from beat estimation or from the loop-point
extraction makes `BeatDetect.evaluate()` return false, and a
`ValueError` from the spectral-similarity comparison (a segment too
short to compare) is absorbed inside `find_similar_endpoints`, which
ends its search with `(-1, -1)` instead of raising.  (Exceptions of any
other class propagate, see `evaluate_can_raise`.) -/
theorem evaluate_value_error_handling :
    (∀ (sampleRate : ℕ) (minLoopDuration : ℤ),
      beatDetectEvaluate (Except.error PyExc.valueError) sampleRate
        minLoopDuration = Except.ok (false, -1, -1)) ∧
    (∀ (beats : List (ℚ × ℕ)) (sampleRate : ℕ) (minLoopDuration : ℤ),
      getLoopPoints beats = Except.error PyExc.valueError →
      beatDetectEvaluate (Except.ok beats) sampleRate minLoopDuration =
        Except.ok (false, -1, -1)) ∧
    (∀ (simF : ℤ → ℤ → Except PyExc ℚ) (audio : List ℚ) (frames : List ℕ)
      (thr : ℚ),
      (∀ s e, simF s e = Except.error PyExc.valueError) →
      findSimilarEndpoints simF audio frames thr = Except.ok (-1, -1)) := by
  refine ⟨fun _ _ => rfl, fun beats sr md h => ?_, ?_⟩
  · simp only [beatDetectEvaluate]
    rw [h]
  · intro simF audio frames thr hsim
    unfold findSimilarEndpoints
    generalize List.range (min (frames.length - 1) 120) = is
    induction is with
    | nil => rfl
    | cons i is ih =>
      unfold fseOuter
      split
      · rw [fseInner_all_valueError simF audio frames thr _ _ hsim]
        exact ih
      · rfl

/-- Witness for `evaluate_value_error_handling`: a raised `ValueError`
from beat tracking, a beat list with a single downbeat (so loop-point
extraction raises `ValueError`), and an always-too-short similarity
comparison. -/
theorem evaluate_value_error_handling_witness :
    beatDetectEvaluate (Except.error PyExc.valueError) 44100 20000 =
      Except.ok (false, -1, -1) ∧
    beatDetectEvaluate (Except.ok [((0 : ℚ), 1), ((1 : ℚ), 2)]) 44100 20000 =
      Except.ok (false, -1, -1) ∧
    findSimilarEndpoints (fun _ _ => Except.error PyExc.valueError) []
      [0, 3, 5] (8/10) = Except.ok (-1, -1) := by
  refine ⟨evaluate_value_error_handling.1 44100 20000,
    evaluate_value_error_handling.2.1 [((0 : ℚ), 1), ((1 : ℚ), 2)] 44100 20000 ?_,
    evaluate_value_error_handling.2.2 (fun _ _ => Except.error PyExc.valueError)
      [] [0, 3, 5] (8/10) (fun s e => rfl)⟩
  simp [getLoopPoints, downbeatTimes]

/-- The BeatAligned loop-point selection as claim C3 (spec §4.3) words
it, for comparison with the source's `getLoopPoints`: group beats into
bars of 4, `num_bars = beat_count / 4`, unsuitable if `num_bars < 1`,
`even_bars` the largest power of two at most `num_bars`, loop start at
the first beat, loop end at beat index `even_bars*4 - 1`. -/
def specBeatAlignedLoopPoints (beats : List (ℚ × ℕ)) : Option (ℚ × ℚ) :=
  if beats.length / 4 < 1 then none
  else
    some ((beats.map Prod.fst).headD 0,
      (beats.map Prod.fst).getD (evenNumBars (beats.length / 4) * 4 - 1) 0)

/-- The full BeatAligned suitability decision as claim C3 words it:
suitable only if `(loop_end - loop_start) * 1000 / sample_rate` is at
least the params' `min_duration` in milliseconds, with the loop ends as
sample offsets of the selected beats. -/
def specBeatAlignedEvaluate (beats : List (ℚ × ℕ)) (sampleRate : ℕ)
    (minDuration : ℤ) : Bool × ℤ × ℤ :=
  match specBeatAlignedLoopPoints beats with
  | none => (false, -1, -1)
  | some (s, e) =>
    if minDuration ≤
        (pyInt (e * sampleRate) - pyInt (s * sampleRate)) * 1000 / sampleRate then
      (true, pyInt (s * sampleRate), pyInt (e * sampleRate))
    else (false, -1, -1)

/-- Nine beats at seconds 0..8, labelled `1,2,3,4` cyclically: three
downbeats (at 0, 4 and 8). -/
def exBeats : List (ℚ × ℕ) :=
  [(0, 1), (1, 2), (2, 3), (3, 4), (4, 1), (5, 2), (6, 3), (7, 4), (8, 1)]

/-- C3 counterexample: on `exBeats` at 1000 Hz with `min_duration =
5000`, the claim's reading predicts a suitable loop over samples
`(0, 7000)` (beat index `even_bars*4 - 1 = 7`), but the code derives
bars from downbeat labels (`num_bars = 3 - 1 = 2`), picks downbeat
index 2 — sample 8000 — and compares `int((8-0)*1000) = 8000` ms
against `min_duration * 1000 = 5000000`, reporting unsuitable. -/
theorem beat_detect_claim_false :
    specBeatAlignedEvaluate exBeats 1000 5000 = (true, 0, 7000) ∧
    beatDetectEvaluate (Except.ok exBeats) 1000 (minLoopDurationOf 5000) =
      Except.ok (false, -1, -1) := by
  constructor
  · norm_num [specBeatAlignedEvaluate, specBeatAlignedLoopPoints, exBeats,
      evenNumBars, lp2Go, pyInt, List.getD]
  · norm_num [beatDetectEvaluate, getLoopPoints, downbeatTimes, exBeats,
      evenNumBars, lp2Go, pyInt, minLoopDurationOf, List.getD]

lemma lp2Go_spec : ∀ (fuel n : ℕ), 1 ≤ n → n ≤ fuel →
    (∃ m, lp2Go fuel n = 2 ^ m) ∧ lp2Go fuel n ≤ n ∧ n < 2 * lp2Go fuel n := by
  intro fuel
  induction fuel with
  | zero => intro n h1 h2; omega
  | succ f ih =>
    intro n h1 h2
    unfold lp2Go
    by_cases h : n < 2
    · rw [if_pos h]
      exact ⟨⟨0, rfl⟩, by omega, by omega⟩
    · rw [if_neg h]
      obtain ⟨⟨m, hm⟩, hle, hlt⟩ := ih (n / 2) (by omega) (by omega)
      refine ⟨⟨m + 1, by rw [hm]; ring⟩, by omega, by omega⟩

/-- C3 (amended): the code derives bars from the tracked downbeats
(label 1), not from groups of 4 beats: `num_bars` is the downbeat count
minus one; fewer than one bar raises the internally-caught `ValueError`
(hence unsuitable); otherwise `even_bars` is the largest power of two at
most `num_bars`, the loop runs from the first downbeat to downbeat index
`even_bars`, and the result is suitable iff `int((end_time -
start_time) * 1000)` is at least the strategy's `min_loop_duration`
(which the orchestrator sets to `params.min_duration * 1000`), with loop
ends recorded as `int(time * sample_rate)`. -/
theorem beat_detect_spec :
    (∀ (beats : List (ℚ × ℕ)) (sampleRate : ℕ) (minLoopDuration : ℤ),
      (downbeatTimes beats).length < 2 →
      beatDetectEvaluate (Except.ok beats) sampleRate minLoopDuration =
        Except.ok (false, -1, -1)) ∧
    (∀ (beats : List (ℚ × ℕ)) (d : ℕ),
      (downbeatTimes beats).length = d + 2 →
      (∃ m : ℕ, evenNumBars (d + 1) = 2 ^ m) ∧
      evenNumBars (d + 1) ≤ d + 1 ∧ d + 1 < 2 * evenNumBars (d + 1) ∧
      getLoopPoints beats =
        Except.ok ((downbeatTimes beats).headD 0,
          (downbeatTimes beats).getD (evenNumBars (d + 1)) 0)) ∧
    (∀ (beats : List (ℚ × ℕ)) (s e : ℚ) (sampleRate : ℕ) (minLoopDuration : ℤ),
      getLoopPoints beats = Except.ok (s, e) →
      beatDetectEvaluate (Except.ok beats) sampleRate minLoopDuration =
        if 0 ≤ s ∧ 0 ≤ e then
          (if minLoopDuration ≤ pyInt ((e - s) * 1000) then
            Except.ok (true, pyInt (s * sampleRate), pyInt (e * sampleRate))
          else Except.ok (false, -1, -1))
        else Except.ok (false, -1, -1)) := by
  refine ⟨?_, ?_, ?_⟩
  · intro beats sampleRate minLoopDuration h
    have hpts : getLoopPoints beats = Except.error PyExc.valueError := by
      unfold getLoopPoints
      rw [if_pos (by omega)]
    simp only [beatDetectEvaluate]
    rw [hpts]
  · intro beats d h
    obtain ⟨hpow, hle, hlt⟩ := lp2Go_spec (d + 1) (d + 1) (by omega) le_rfl
    have hnb : (downbeatTimes beats).length - 1 = d + 1 := by omega
    refine ⟨hpow, hle, hlt, ?_⟩
    unfold getLoopPoints
    rw [if_neg (by omega), hnb]
  · intro beats s e sampleRate minLoopDuration h
    simp only [beatDetectEvaluate]
    rw [h]

/-- Witness for `beat_detect_spec` on three all-downbeat lists: one
downbeat only (unsuitable), three downbeats (loop points from downbeat
0 to downbeat 2), and the final suitability decision at 2 Hz. -/
theorem beat_detect_spec_witness :
    beatDetectEvaluate (Except.ok [((0 : ℚ), 1)]) 100 5 =
      Except.ok (false, -1, -1) ∧
    getLoopPoints [((0 : ℚ), 1), ((2 : ℚ), 1), ((5 : ℚ), 1)] =
      Except.ok ((downbeatTimes [((0 : ℚ), 1), ((2 : ℚ), 1), ((5 : ℚ), 1)]).headD 0,
        (downbeatTimes [((0 : ℚ), 1), ((2 : ℚ), 1), ((5 : ℚ), 1)]).getD
          (evenNumBars 2) 0) ∧
    beatDetectEvaluate (Except.ok [((0 : ℚ), 1), ((2 : ℚ), 1), ((5 : ℚ), 1)])
        2 3 =
      if 0 ≤ (0 : ℚ) ∧ 0 ≤ (5 : ℚ) then
        (if (3 : ℤ) ≤ pyInt (((5 : ℚ) - 0) * 1000) then
          Except.ok (true, pyInt ((0 : ℚ) * 2), pyInt ((5 : ℚ) * 2))
        else Except.ok (false, -1, -1))
      else Except.ok (false, -1, -1) := by
  have h2 : getLoopPoints [((0 : ℚ), 1), ((2 : ℚ), 1), ((5 : ℚ), 1)] =
      Except.ok (0, 5) := by
    norm_num [getLoopPoints, downbeatTimes, evenNumBars, lp2Go, List.getD]
  refine ⟨beat_detect_spec.1 [((0 : ℚ), 1)] 100 5 (by simp [downbeatTimes]), ?_, ?_⟩
  · have h := (beat_detect_spec.2.1 [((0 : ℚ), 1), ((2 : ℚ), 1), ((5 : ℚ), 1)] 1
      (by simp [downbeatTimes])).2.2.2
    simpa using h
  · exact beat_detect_spec.2.2 [((0 : ℚ), 1), ((2 : ℚ), 1), ((5 : ℚ), 1)] 0 5 2 3 h2

/-! ### `loop_strategy/crossfade.py` — the CrossFade strategy

`evaluate()` memoizes the external spectral-centroid variance check; its
outcome is the parameter `isSuitable`.  `create_loop()` is embedded
including the defect on its crossfade line: the keyword argument is
written `self(type).CROSSFADE_DURATION_MS` — calling the `CrossFade`
instance itself, which defines no `__call__`, so evaluating the argument
raises `TypeError` before `equal_power_crossfade` ever runs (the
receiver `self.audio.audio_data` and `self.audio.sample_rate` are
evaluated first and are harmless). -/

/-- `CrossFade.create_loop()`. -/
def crossFadeCreateLoop (cosHalfPi sinHalfPi : ℚ → ℚ) (audio : AudioData)
    (isSuitable : Bool) : Except PyExc AudioData :=
  if !isSuitable then .error .valueError
  else do
    let durMs ← (Except.error PyExc.typeError : Except PyExc ℕ)
    let wav ← equalPowerCrossfade cosHalfPi sinHalfPi audio.data
      audio.sample_rate durMs 0 1
    let wav2 ← fadeOutArr wav audio.sample_rate 600 0 1
    pure (AudioData.mk wav2 audio.sample_rate)

/-- C4: on every buffer whose `evaluate()` passed (centroid variance
below the threshold), `CrossFade.create_loop()` raises `TypeError` —
`self(type)` calls the non-callable strategy instance — instead of
returning the crossfaded loop its docstring promises. -/
theorem crossfade_create_loop_raises (cosHalfPi sinHalfPi : ℚ → ℚ)
    (audio : AudioData) :
    crossFadeCreateLoop cosHalfPi sinHalfPi audio true =
      Except.error PyExc.typeError := rfl

/-! ### `util.adjust_loop_ends`, `util.align_phase` and
`LoopStrategy.slice_and_blend`

Onset detection and the per-segment FFT phase correction are external
capabilities: the detected onsets (in samples) are the parameter
`onsets`, and the phase-corrected end segment (`ifft(abs(fft_b) *
exp(i*(angle_b + (angle_a - angle_b))))`) is the parameter `adjust`
applied to the two extracted segments.  Everything else — index
arithmetic, the blend, and the in-place write-back into the original
array — is embedded from the source.  `slice_and_blend` passes
`in_place=True` to `align_phase`, so the write-back lands in the very
array of the `AudioData` the strategy was constructed with; the
embedding returns that array's post-call state alongside the result. -/

/-- Python's `min(onsets, key=lambda x: abs(x - target))`: the first
minimiser. -/
def closestOnset (onsets : List ℤ) (target : ℤ) : Option ℤ :=
  onsets.foldl (fun acc x =>
    match acc with
    | none => some x
    | some b => if |x - target| < |b - target| then some x else some b) none

/-- `util.adjust_loop_ends(loop, loop_start, loop_end)` given the
detected onsets. -/
def adjustLoopEnds (onsets : List ℤ) (length : ℕ) (loopStart loopEnd : ℤ) :
    ℤ × ℤ :=
  match closestOnset onsets loopStart, closestOnset onsets loopEnd with
  | some so, some eo =>
    ((if 0 ≤ so then so else loopStart),
     (if eo < (length : ℤ) then eo else loopEnd))
  | _, _ => (loopStart, loopEnd)

/-- `segment_length = min(segment_length, sample_count)` of
`align_phase`, clamped to a natural number. -/
def alignSegLen (segmentLength : ℤ) (sampleCount : ℕ) : ℕ :=
  (min segmentLength (sampleCount : ℤ)).toNat

/-- `segment_a_start = min(max(loop_start - segment_length//2, 0),
sample_count - segment_length)`. -/
def alignAStart (loopStart : ℤ) (seg sampleCount : ℕ) : ℕ :=
  (min (max (loopStart - (seg : ℤ) / 2) 0) ((sampleCount : ℤ) - (seg : ℤ))).toNat

/-- `segment_b_start = min(max(loop_end - segment_length//2, 0),
sample_count - segment_length)`. -/
def alignBStart (loopEnd : ℤ) (seg sampleCount : ℕ) : ℕ :=
  (min (max (loopEnd - (seg : ℤ) / 2) 0) ((sampleCount : ℤ) - (seg : ℤ))).toNat

/-- Replacement of the slice `[start, start + seg.length)` of a channel
by `seg` (numpy slice assignment; lengths always agree in the embedded
calls). -/
def writeSegment (c : List ℚ) (start : ℕ) (seg : List ℚ) : List ℚ :=
  c.take start ++ seg ++ c.drop (start + seg.length)

/-- The per-channel body of `align_phase`: extract the two segments,
phase-correct the end segment, blend with the equal-power curves and
write the blend back over the end segment. -/
def alignChannel (adjust : List ℚ → List ℚ → List ℚ) (fo fi : List ℚ)
    (aStart bStart seg : ℕ) (c : List ℚ) : List ℚ :=
  writeSegment c bStart
    (List.zipWith (fun x y => x + y)
      (List.zipWith (fun s f => s * f) ((c.drop bStart).take seg) fo)
      (List.zipWith (fun s f => s * f)
        (adjust ((c.drop aStart).take seg) ((c.drop bStart).take seg)) fi))

/-- The stereo body of `util.align_phase`: validate the loop indices,
then phase-align each channel (`sample_count = audio_data.shape[1]`,
taken from the first channel of the `(2, N)` array). -/
def alignPhaseTwo (cosHalfPi sinHalfPi : ℚ → ℚ)
    (adjust : List ℚ → List ℚ → List ℚ) (c1 c2 : List ℚ)
    (loopStart loopEnd segmentLength : ℤ) (cmin cmax : ℚ) :
    Except PyExc NDArray :=
  if loopStart < 0 ∨ (c1.length : ℤ) ≤ loopEnd ∨ loopEnd ≤ loopStart then
    .error .valueError
  else
    .ok (.two
      (alignChannel adjust
        ((linspaceQ cmin cmax (alignSegLen segmentLength c1.length)).map cosHalfPi)
        ((linspaceQ cmin cmax (alignSegLen segmentLength c1.length)).map sinHalfPi)
        (alignAStart loopStart (alignSegLen segmentLength c1.length) c1.length)
        (alignBStart loopEnd (alignSegLen segmentLength c1.length) c1.length)
        (alignSegLen segmentLength c1.length) c1)
      (alignChannel adjust
        ((linspaceQ cmin cmax (alignSegLen segmentLength c1.length)).map cosHalfPi)
        ((linspaceQ cmin cmax (alignSegLen segmentLength c1.length)).map sinHalfPi)
        (alignAStart loopStart (alignSegLen segmentLength c1.length) c1.length)
        (alignBStart loopEnd (alignSegLen segmentLength c1.length) c1.length)
        (alignSegLen segmentLength c1.length) c2))

/-- `util.align_phase(audio_data, loop_start, loop_end, segment_length,
...)`; the equal-power blend runs over `t = linspace(crossfade_min*pi/2,
crossfade_max*pi/2, segment_length)`, and a 1-D array fails on
`shape[1]`. -/
def alignPhase (cosHalfPi sinHalfPi : ℚ → ℚ)
    (adjust : List ℚ → List ℚ → List ℚ) (a : NDArray)
    (loopStart loopEnd segmentLength : ℤ) (cmin cmax : ℚ) :
    Except PyExc NDArray :=
  match a with
  | .one _ => .error .indexError
  | .two c1 c2 =>
    alignPhaseTwo cosHalfPi sinHalfPi adjust c1 c2 loopStart loopEnd
      segmentLength cmin cmax

/-- `align_length = min((loop_end - loop_start) // 2,
(sample_rate * PHASE_ALIGN_DURATION_MS) // 1000)` from
`slice_and_blend` (`PHASE_ALIGN_DURATION_MS = 1200`). -/
def sabAlignLen (sampleRate : ℕ) (ls le : ℤ) : ℤ :=
  min ((le - ls).fdiv 2) (((sampleRate * 1200) / 1000 : ℕ) : ℤ)

/-- `AudioData.length`: samples per channel (`shape[1]` for stereo). -/
def ndLength : NDArray → ℕ
  | .one l => l.length
  | .two c1 _ => c1.length

/-- `LoopStrategy.slice_and_blend(loop, loop_start, loop_end)`: onset
snapping, in-place phase alignment on the input array, crop, equal-power
crossfade at the head (600 ms, levels 0..0.5), then fade-in/fade-out
margins (1200 ms, min levels 0.5 / 0.4).  Returns the post-call state of
the input array together with the new `AudioData` result. -/
def sliceAndBlend (cosHalfPi sinHalfPi : ℚ → ℚ)
    (adjust : List ℚ → List ℚ → List ℚ) (onsets : List ℤ)
    (loop : AudioData) (loopStart loopEnd : ℤ) :
    Except PyExc (NDArray × AudioData) :=
  match alignPhase cosHalfPi sinHalfPi adjust loop.data
      (adjustLoopEnds onsets (ndLength loop.data) loopStart loopEnd).1
      (adjustLoopEnds onsets (ndLength loop.data) loopStart loopEnd).2
      (sabAlignLen loop.sample_rate
        (adjustLoopEnds onsets (ndLength loop.data) loopStart loopEnd).1
        (adjustLoopEnds onsets (ndLength loop.data) loopStart loopEnd).2) 0 1 with
  | .error e => .error e
  | .ok (.one _) => .error .indexError
  | .ok (.two d1 d2) =>
    match equalPowerCrossfade cosHalfPi sinHalfPi
        (.two (pySlice d1
            (adjustLoopEnds onsets (ndLength loop.data) loopStart loopEnd).1
            (adjustLoopEnds onsets (ndLength loop.data) loopStart loopEnd).2)
          (pySlice d2
            (adjustLoopEnds onsets (ndLength loop.data) loopStart loopEnd).1
            (adjustLoopEnds onsets (ndLength loop.data) loopStart loopEnd).2))
        loop.sample_rate 600 0 (1/2) with
    | .error e => .error e
    | .ok cf =>
      match fadeInArr cf loop.sample_rate 1200 (1/2) 1 with
      | .error e => .error e
      | .ok f1 =>
        match fadeOutArr f1 loop.sample_rate 1200 (2/5) 1 with
        | .error e => .error e
        | .ok f2 => .ok (NDArray.two d1 d2, AudioData.mk f2 loop.sample_rate)

/-- `BeatDetect.create_loop()`: re-runs the memoized `evaluate()` and
raises `ValueError` when unsuitable, otherwise slices and blends between
the recorded loop points; the pair carries the post-call state of the
strategy's input array next to the produced loop. -/
def beatDetectCreateLoop (cosHalfPi sinHalfPi : ℚ → ℚ)
    (adjust : List ℚ → List ℚ → List ℚ) (onsets : List ℤ)
    (beatsR : Except PyExc (List (ℚ × ℕ))) (audio : AudioData)
    (minLoopDuration : ℤ) : Except PyExc (NDArray × AudioData) :=
  match beatDetectEvaluate beatsR audio.sample_rate minLoopDuration with
  | .error e => .error e
  | .ok (false, _, _) => .error .valueError
  | .ok (true, ls, le) =>
    sliceAndBlend cosHalfPi sinHalfPi adjust onsets audio ls le

lemma getD_append_left (l1 l2 : List ℚ) (i : ℕ) (h : i < l1.length) :
    (l1 ++ l2).getD i 0 = l1.getD i 0 := by
  induction l1 generalizing i with
  | nil => simp at h
  | cons x xs ih =>
    cases i with
    | zero => rfl
    | succ n =>
      simp only [List.cons_append, List.getD_cons_succ]
      exact ih n (by simpa using h)

lemma getD_append_right (l1 l2 : List ℚ) (i : ℕ) (h : l1.length ≤ i) :
    (l1 ++ l2).getD i 0 = l2.getD (i - l1.length) 0 := by
  induction l1 generalizing i with
  | nil => simp
  | cons x xs ih =>
    cases i with
    | zero => simp at h
    | succ n =>
      simp only [List.cons_append, List.getD_cons_succ, List.length_cons]
      rw [ih n (by simpa using h)]
      congr 1
      omega

lemma getD_take (c : List ℚ) (n i : ℕ) (h : i < n) :
    (c.take n).getD i 0 = c.getD i 0 := by
  induction c generalizing n i with
  | nil => simp
  | cons x xs ih =>
    cases n with
    | zero => omega
    | succ m =>
      cases i with
      | zero => rfl
      | succ k =>
        simp only [List.take_succ_cons, List.getD_cons_succ]
        exact ih m k (by omega)

lemma getD_drop (c : List ℚ) (n i : ℕ) :
    (c.drop n).getD i 0 = c.getD (n + i) 0 := by
  induction c generalizing n with
  | nil => simp
  | cons x xs ih =>
    cases n with
    | zero => simp
    | succ m =>
      simp only [List.drop_succ_cons]
      rw [ih m]
      have hmi : m + 1 + i = (m + i) + 1 := by omega
      rw [hmi, List.getD_cons_succ]

lemma writeSegment_getD_frame (c seg : List ℚ) (start : ℕ) (i : ℕ)
    (hstart : start + seg.length ≤ c.length)
    (h : i < start ∨ start + seg.length ≤ i) :
    (writeSegment c start seg).getD i 0 = c.getD i 0 := by
  unfold writeSegment
  have htake : (c.take start).length = start := by
    simp [List.length_take]
    omega
  have hts : (c.take start ++ seg).length = start + seg.length := by
    simp [htake]
  rcases h with h | h
  · rw [getD_append_left _ _ i (by rw [hts]; omega)]
    rw [getD_append_left _ _ i (by rw [htake]; omega)]
    exact getD_take c start i h
  · rw [getD_append_right _ _ i (by rw [hts]; omega), hts, getD_drop]
    congr 1
    omega

lemma alignChannel_length (adjust : List ℚ → List ℚ → List ℚ)
    (fo fi : List ℚ) (aStart bStart seg : ℕ) (c : List ℚ)
    (hb : bStart + seg ≤ c.length) (hfo : fo.length = seg)
    (hfi : fi.length = seg)
    (hadj : ∀ sa sb, (adjust sa sb).length = sb.length) :
    (alignChannel adjust fo fi aStart bStart seg c).length = c.length := by
  have hsegB : ((c.drop bStart).take seg).length = seg := by
    simp [List.length_take, List.length_drop]
    omega
  have hblend : (List.zipWith (fun x y => x + y)
      (List.zipWith (fun s f => s * f) ((c.drop bStart).take seg) fo)
      (List.zipWith (fun s f => s * f)
        (adjust ((c.drop aStart).take seg) ((c.drop bStart).take seg)) fi)).length
        = seg := by
    simp [List.length_zipWith, hsegB, hfo, hfi, hadj]
  unfold alignChannel writeSegment
  simp [List.length_append, List.length_take, List.length_drop, hblend]
  omega

lemma alignChannel_frame (adjust : List ℚ → List ℚ → List ℚ)
    (fo fi : List ℚ) (aStart bStart seg : ℕ) (c : List ℚ) (i : ℕ)
    (hb : bStart + seg ≤ c.length) (hfo : fo.length = seg)
    (hfi : fi.length = seg)
    (hadj : ∀ sa sb, (adjust sa sb).length = sb.length)
    (h : i < bStart ∨ bStart + seg ≤ i) :
    (alignChannel adjust fo fi aStart bStart seg c).getD i 0 = c.getD i 0 := by
  have hsegB : ((c.drop bStart).take seg).length = seg := by
    simp [List.length_take, List.length_drop]
    omega
  have hblend : (List.zipWith (fun x y => x + y)
      (List.zipWith (fun s f => s * f) ((c.drop bStart).take seg) fo)
      (List.zipWith (fun s f => s * f)
        (adjust ((c.drop aStart).take seg) ((c.drop bStart).take seg)) fi)).length
        = seg := by
    simp [List.length_zipWith, hsegB, hfo, hfi, hadj]
  unfold alignChannel
  rw [writeSegment_getD_frame _ _ _ _ (by rw [hblend]; omega) (by rw [hblend]; omega)]

lemma alignSegLen_le (segmentLength : ℤ) (sampleCount : ℕ) :
    alignSegLen segmentLength sampleCount ≤ sampleCount := by
  unfold alignSegLen
  omega

lemma alignBStart_add_le (loopEnd : ℤ) (seg sampleCount : ℕ)
    (hseg : seg ≤ sampleCount) :
    alignBStart loopEnd seg sampleCount + seg ≤ sampleCount := by
  unfold alignBStart
  omega

lemma linspaceQ_length (a b : ℚ) (n : ℕ) : (linspaceQ a b n).length = n := by
  unfold linspaceQ
  split
  · rw [List.length_map, List.length_range]
  · rw [List.length_map, List.length_range]

lemma alignPhase_two_ok (cosHalfPi sinHalfPi : ℚ → ℚ)
    (adjust : List ℚ → List ℚ → List ℚ) (c1 c2 : List ℚ)
    (ls le segLen : ℤ) (cmin cmax : ℚ) (out : NDArray)
    (h : alignPhase cosHalfPi sinHalfPi adjust (.two c1 c2) ls le segLen
      cmin cmax = .ok out) :
    out = .two
      (alignChannel adjust
        ((linspaceQ cmin cmax (alignSegLen segLen c1.length)).map cosHalfPi)
        ((linspaceQ cmin cmax (alignSegLen segLen c1.length)).map sinHalfPi)
        (alignAStart ls (alignSegLen segLen c1.length) c1.length)
        (alignBStart le (alignSegLen segLen c1.length) c1.length)
        (alignSegLen segLen c1.length) c1)
      (alignChannel adjust
        ((linspaceQ cmin cmax (alignSegLen segLen c1.length)).map cosHalfPi)
        ((linspaceQ cmin cmax (alignSegLen segLen c1.length)).map sinHalfPi)
        (alignAStart ls (alignSegLen segLen c1.length) c1.length)
        (alignBStart le (alignSegLen segLen c1.length) c1.length)
        (alignSegLen segLen c1.length) c2) := by
  have h2 : alignPhaseTwo cosHalfPi sinHalfPi adjust c1 c2 ls le segLen
      cmin cmax = .ok out := h
  unfold alignPhaseTwo at h2
  split at h2
  · exact absurd h2 (by simp)
  · exact (Except.ok.inj h2).symm

/-- C8 (amended): `evaluate()` leaves the input buffer untouched, but
the `create_loop()` of the slice-and-blend strategies writes into the
very array of the strategy's input `AudioData` (`align_phase` is called
with `in_place=True`); the write is confined to the phase-alignment
window — every sample of either channel outside `[segment_b_start,
segment_b_start + segment_length)` is unchanged, and the channel
lengths are preserved. -/
theorem slice_and_blend_frame (cosHalfPi sinHalfPi : ℚ → ℚ)
    (adjust : List ℚ → List ℚ → List ℚ) (onsets : List ℤ)
    (c1 c2 : List ℚ) (sampleRate : ℕ) (loopStart loopEnd : ℤ)
    (after : NDArray) (result : AudioData) (ls le : ℤ) (seg b : ℕ)
    (hadj : ∀ sa sb, (adjust sa sb).length = sb.length)
    (hlen : c2.length = c1.length)
    (h : sliceAndBlend cosHalfPi sinHalfPi adjust onsets
      ⟨.two c1 c2, sampleRate⟩ loopStart loopEnd = .ok (after, result))
    (hls : adjustLoopEnds onsets c1.length loopStart loopEnd = (ls, le))
    (hseg : seg = alignSegLen (sabAlignLen sampleRate ls le) c1.length)
    (hb : b = alignBStart le seg c1.length) :
    ∃ d1 d2, after = .two d1 d2 ∧
      d1.length = c1.length ∧ d2.length = c2.length ∧
      ∀ i : ℕ, i < b ∨ b + seg ≤ i →
        d1.getD i 0 = c1.getD i 0 ∧ d2.getD i 0 = c2.getD i 0 := by
  unfold sliceAndBlend at h
  simp only [ndLength] at h
  rw [hls] at h
  split at h
  · simp at h
  · simp at h
  · rename_i d1 d2 heq
    obtain hout := alignPhase_two_ok cosHalfPi sinHalfPi adjust c1 c2 _ _ _
      _ _ _ heq
    obtain ⟨hd1, hd2⟩ : d1 = alignChannel adjust
        ((linspaceQ 0 1 (alignSegLen (sabAlignLen sampleRate ls le)
          c1.length)).map cosHalfPi)
        ((linspaceQ 0 1 (alignSegLen (sabAlignLen sampleRate ls le)
          c1.length)).map sinHalfPi)
        (alignAStart ls (alignSegLen (sabAlignLen sampleRate ls le)
          c1.length) c1.length)
        (alignBStart le (alignSegLen (sabAlignLen sampleRate ls le)
          c1.length) c1.length)
        (alignSegLen (sabAlignLen sampleRate ls le) c1.length) c1 ∧
        d2 = alignChannel adjust
        ((linspaceQ 0 1 (alignSegLen (sabAlignLen sampleRate ls le)
          c1.length)).map cosHalfPi)
        ((linspaceQ 0 1 (alignSegLen (sabAlignLen sampleRate ls le)
          c1.length)).map sinHalfPi)
        (alignAStart ls (alignSegLen (sabAlignLen sampleRate ls le)
          c1.length) c1.length)
        (alignBStart le (alignSegLen (sabAlignLen sampleRate ls le)
          c1.length) c1.length)
        (alignSegLen (sabAlignLen sampleRate ls le) c1.length) c2 := by
      injection hout with h1 h2
      exact ⟨h1, h2⟩
    have hA : after = NDArray.two d1 d2 := by
      split at h
      · simp at h
      · split at h
        · simp at h
        · split at h
          · simp at h
          · have hinj := Except.ok.inj h
            exact (congrArg Prod.fst hinj).symm
    have hsegle : alignSegLen (sabAlignLen sampleRate ls le) c1.length ≤
        c1.length := alignSegLen_le _ _
    have hbs : alignBStart le (alignSegLen (sabAlignLen sampleRate ls le)
        c1.length) c1.length + alignSegLen (sabAlignLen sampleRate ls le)
        c1.length ≤ c1.length := alignBStart_add_le _ _ _ hsegle
    have hfol : ((linspaceQ 0 1 (alignSegLen (sabAlignLen sampleRate ls le)
        c1.length)).map cosHalfPi).length =
        alignSegLen (sabAlignLen sampleRate ls le) c1.length := by
      simp [linspaceQ_length]
    have hfil : ((linspaceQ 0 1 (alignSegLen (sabAlignLen sampleRate ls le)
        c1.length)).map sinHalfPi).length =
        alignSegLen (sabAlignLen sampleRate ls le) c1.length := by
      simp [linspaceQ_length]
    subst hseg hb
    refine ⟨d1, d2, hA, ?_, ?_, ?_⟩
    · rw [hd1]
      exact alignChannel_length adjust _ _ _ _ _ c1 hbs hfol hfil hadj
    · rw [hd2]
      refine alignChannel_length adjust _ _ _ _ _ c2 ?_ hfol hfil hadj
      omega
    · intro i hi
      constructor
      · rw [hd1]
        exact alignChannel_frame adjust _ _ _ _ _ c1 i hbs hfol hfil hadj hi
      · rw [hd2]
        refine alignChannel_frame adjust _ _ _ _ _ c2 i ?_ hfol hfil hadj hi
        omega

/-- Concrete equal-power curve table: agrees with `u ↦ cos(u*pi/2)` at
every curve coordinate evaluated in the concrete runs below (`u ∈ {0,
1}`, where the exact values are `cos 0 = 1` and `cos(pi/2) = 0`). -/
def exCos (u : ℚ) : ℚ := if u = 0 then 1 else 0

/-- Concrete equal-power curve table: agrees with `u ↦ sin(u*pi/2)` at
`u ∈ {0, 1}` (`sin 0 = 0`, `sin(pi/2) = 1`). -/
def exSin (u : ℚ) : ℚ := if u = 1 then 1 else 0

/-- The phase-correction capability of `align_phase`, evaluated exactly
for two-sample segments: `fft([x0,x1]) = [x0+x1, x0-x1]` is real,
`np.angle` of a real is `0` (when `>= 0`, matching `np.angle(0) = 0`)
or `pi`, so `abs(fft_b) * exp(i*(angle_b + (angle_a - angle_b))) =
abs(fft_b) * sign(fft_a)` componentwise, and `ifft([u, v]) = [(u+v)/2,
(u-v)/2]`.  Other segment lengths (not exercised below) are returned
unchanged. -/
def adjustDFT2 (sa sb : List ℚ) : List ℚ :=
  match sa, sb with
  | [a0, a1], [b0, b1] =>
    [((|b0 + b1| * (if 0 ≤ a0 + a1 then 1 else -1)) +
      (|b0 - b1| * (if 0 ≤ a0 - a1 then 1 else -1))) / 2,
     ((|b0 + b1| * (if 0 ≤ a0 + a1 then 1 else -1)) -
      (|b0 - b1| * (if 0 ≤ a0 - a1 then 1 else -1))) / 2]
  | _, _ => sb

lemma adjustDFT2_length (sa sb : List ℚ) :
    (adjustDFT2 sa sb).length = sb.length := by
  unfold adjustDFT2
  split
  · rfl
  · rfl

/-- Input channel for the mutation run: 8 samples at 2 Hz. -/
def exCh : List ℚ := [1, 0, 0, 0, 0, -1, 0, 0]

/-- The same channel after `create_loop`: the phase-alignment window
`[4, 6)` was overwritten, sample 5 changed from -1 to 0. -/
def exChAfter : List ℚ := [1, 0, 0, 0, 0, 0, 0, 0]

/-- Stereo input buffer (both channels `exCh`) at 2 Hz. -/
def exAudio : AudioData := ⟨.two exCh exCh, 2⟩

/-- Two downbeats at 0 s and 2.5 s: `evaluate()` accepts the loop
`[0, 5)` in samples for `min_loop_duration = 2000` ms. -/
def exBeats2 : List (ℚ × ℕ) := [((0 : ℚ), 1), ((5/2 : ℚ), 1)]

lemma ex_loop_points : getLoopPoints exBeats2 = Except.ok (0, 5/2) := by
  norm_num [getLoopPoints, downbeatTimes, exBeats2, evenNumBars, lp2Go,
    List.getD]

lemma ex_evaluate : beatDetectEvaluate (Except.ok exBeats2) 2 2000 =
    Except.ok (true, 0, 5) := by
  norm_num [beatDetectEvaluate, ex_loop_points, pyInt]

lemma ex_align : alignPhase exCos exSin adjustDFT2 (.two exCh exCh) 0 5 2 0 1 =
    Except.ok (.two exChAfter exChAfter) := by
  have hseg : alignSegLen 2 8 = 2 := rfl
  have hb : alignBStart 5 2 8 = 4 := rfl
  have ha : alignAStart 0 2 8 = 0 := rfl
  norm_num [alignPhase, alignPhaseTwo, hseg, hb, ha, alignChannel,
    writeSegment, linspaceQ, List.range_succ, adjustDFT2, exCos, exSin,
    exCh, exChAfter]

lemma ex_cf : equalPowerCrossfade exCos exSin
    (.two [1, 0, 0, 0, 0] [1, 0, 0, 0, 0]) 2 600 0 (1/2) =
    Except.ok (.two [1, 0, 0, 0, 0] [1, 0, 0, 0, 0]) := by
  norm_num [equalPowerCrossfade, channelCrossfade, linspaceQ,
    List.range_succ, exCos, exSin]

lemma ex_f1 : fadeInArr (.two [1, 0, 0, 0, 0] [1, 0, 0, 0, 0]) 2 1200
    (1/2) 1 = Except.ok (.two [1/2, 0, 0, 0, 0] [1/2, 0, 0, 0, 0]) := by
  norm_num [fadeInArr, channelFadeIn, linspaceQ, List.range_succ]

lemma ex_f2 : fadeOutArr (.two [1/2, 0, 0, 0, 0] [1/2, 0, 0, 0, 0]) 2 1200
    (2/5) 1 = Except.ok (.two [1/2, 0, 0, 0, 0] [1/2, 0, 0, 0, 0]) := by
  norm_num [fadeOutArr, channelFadeOut, linspaceQ, List.range_succ]

lemma ex_sab : sliceAndBlend exCos exSin adjustDFT2 [] exAudio 0 5 =
    Except.ok (NDArray.two exChAfter exChAfter,
      AudioData.mk (.two [1/2, 0, 0, 0, 0] [1/2, 0, 0, 0, 0]) 2) := by
  have hadj : adjustLoopEnds [] 8 0 5 = (0, 5) := rfl
  have hcrop : pySlice exChAfter 0 5 = [1, 0, 0, 0, 0] := rfl
  have hsal : sabAlignLen 2 0 5 = 2 := rfl
  simp only [sliceAndBlend, ndLength, exAudio]
  norm_num [show exCh.length = 8 from rfl, hadj, hsal, ex_align, hcrop,
    ex_cf, ex_f1, ex_f2]

/-- C8 counterexample: `BeatDetect.create_loop()` on `exAudio` returns
normally, and afterwards the input buffer's sample array has changed —
`align_phase(..., in_place=True)` overwrote samples 4 and 5 of both
channels (sample 5: -1 became 0).  The input buffer is not read-only
under `create_loop()`. -/
theorem create_loop_mutates_input :
    (beatDetectCreateLoop exCos exSin adjustDFT2 [] (Except.ok exBeats2)
        exAudio 2000).map Prod.fst =
      Except.ok (NDArray.two exChAfter exChAfter) ∧
    NDArray.two exChAfter exChAfter ≠ exAudio.data := by
  constructor
  · have heval : beatDetectEvaluate (Except.ok exBeats2) exAudio.sample_rate
        2000 = Except.ok (true, 0, 5) := ex_evaluate
    norm_num [beatDetectCreateLoop, heval, ex_sab, Except.map]
  · simp [exAudio, exChAfter, exCh]

/-- Witness for `slice_and_blend_frame` at the concrete mutation run:
the window is `[4, 6)` and all samples outside it are unchanged. -/
theorem slice_and_blend_frame_witness :
    ∃ d1 d2, NDArray.two exChAfter exChAfter = NDArray.two d1 d2 ∧
      d1.length = exCh.length ∧ d2.length = exCh.length ∧
      ∀ i : ℕ, i < 4 ∨ 4 + 2 ≤ i →
        d1.getD i 0 = exCh.getD i 0 ∧ d2.getD i 0 = exCh.getD i 0 := by
  refine slice_and_blend_frame exCos exSin adjustDFT2 [] exCh exCh 2 0 5
    (NDArray.two exChAfter exChAfter)
    ⟨NDArray.two [1/2, 0, 0, 0, 0] [1/2, 0, 0, 0, 0], 2⟩ 0 5 2 4
    adjustDFT2_length rfl ?_ rfl rfl rfl
  exact ex_sab

/-! ### `util.prune_silence`

`librosa.effects.trim` and `librosa.effects.split` are the external
silence-segmentation capability.  Following spec §4.2/§9 they are
modelled at sample granularity through one silence predicate `sil` on
the value of the mono downmix (the `top_db`-below-peak threshold;
pruning keeps the global peak sample, so the predicate induced by the
relative threshold is the same on the pruner's output): `trim` drops
the silent samples at both ends, `split` returns the maximal runs of
non-silent samples.  The parameter validation, the ms→samples
conversion, the interval filtering/merging loop and the per-channel
reconstruction are embedded from the source. -/

section Prune

variable (sil : ℚ → Bool)

/-- The mono downmix `np.mean(audio_data, axis=0)` of a stereo pair. -/
def meanChannels (c1 c2 : List ℚ) : List ℚ :=
  List.zipWith (fun a b => (a + b) / 2) c1 c2

/-- Number of leading silent samples (start of the `librosa.effects.trim`
span). -/
def trimLead (m : List ℚ) : ℕ := (m.takeWhile sil).length

/-- Length of the trim span: the leading-trimmed remainder with its
trailing silent samples removed. -/
def trimLen (m : List ℚ) : ℕ :=
  (((m.drop (trimLead sil m)).reverse).dropWhile sil).length

/-- The trim span `[trimLead, trimLead + trimLen)` applied to a list
(the mono downmix or a single channel). -/
def spanTrim (m c : List ℚ) : List ℚ :=
  (c.drop (trimLead sil m)).take (trimLen sil m)

/-- The state machine behind `librosa.effects.split` at sample
granularity: `i` is the index of the head of the remaining list, `st`
carries the start of the currently open non-silent run. -/
def runsAux : List ℚ → ℕ → Option ℕ → List (ℕ × ℕ)
  | [], _, none => []
  | [], i, some s => [(s, i)]
  | x :: xs, i, none =>
    if sil x then runsAux xs (i + 1) none else runsAux xs (i + 1) (some i)
  | x :: xs, i, some s =>
    if sil x then (s, i) :: runsAux xs (i + 1) none
    else runsAux xs (i + 1) (some s)

/-- `librosa.effects.split`: the maximal non-silent intervals
(half-open, in samples). -/
def splitRuns (m : List ℚ) : List (ℕ × ℕ) := runsAux sil m 0 none

/-- The interval filtering/merging loop of `prune_silence`: intervals
separated by more than `min_silence` keep a `keep_silence` margin before
them, closer ones are merged into their predecessor (`IndexError` when
the very first interval starts past 0 — `filtered_intervals[-1]` on an
empty list). -/
def filterIntervals (minSilence keepSilence : ℤ) :
    List (ℕ × ℕ) → List (ℤ × ℤ) → Except PyExc (List (ℤ × ℤ))
  | [], acc => .ok acc
  | (s, e) :: rest, acc =>
    if (s : ℤ) > 0 then
      if (s : ℤ) - ((acc.getLast?.map Prod.snd).getD 0) > minSilence then
        filterIntervals minSilence keepSilence rest
          (acc ++ [((s : ℤ) - keepSilence, (e : ℤ))])
      else
        match acc.getLast? with
        | none => .error .indexError
        | some last =>
          filterIntervals minSilence keepSilence rest
            (acc.dropLast ++ [(last.1, (e : ℤ))])
    else filterIntervals minSilence keepSilence rest (acc ++ [(0, (e : ℤ))])

/-- Concatenation of the kept spans of one channel
(`np.concatenate(processed_audio_k)`). -/
def concatSlices (c : List ℚ) (intervals : List (ℤ × ℤ)) : List ℚ :=
  (intervals.map (fun iv => pySlice c iv.1 iv.2)).flatten

/-- Stereo reconstruction from the kept intervals
(`processed_audio_0/1` and the final `np.array([...])`); with no kept
interval `np.concatenate([])` raises `ValueError`. -/
def pruneRebuild (sr : ℕ) (mc c1 c2 : List ℚ) :
    Except PyExc (List (ℤ × ℤ)) → Except PyExc AudioData
  | .error e => .error e
  | .ok [] => .error .valueError
  | .ok ivs =>
    .ok ⟨.two (concatSlices (spanTrim sil mc c1) ivs)
              (concatSlices (spanTrim sil mc c2) ivs), sr⟩

/-- Outcome of the reconstruction loop on a 1-D mono array: the first
kept interval evaluates `audio_data[0, start:end]`, which raises
`IndexError` (too many indices). -/
def pruneOneResult : Except PyExc (List (ℤ × ℤ)) → Except PyExc AudioData
  | .error e => .error e
  | .ok [] => .error .valueError
  | .ok (_ :: _) => .error .indexError

/-- `util.prune_silence(audio, min_silence_ms, keep_silence_ms,
top_db)`. -/
def pruneSilence (audio : AudioData) (minSilenceMs keepSilenceMs : ℤ) :
    Except PyExc AudioData :=
  if keepSilenceMs < 0 ∨ minSilenceMs < 0 ∨ minSilenceMs ≤ keepSilenceMs then
    .error .valueError
  else
    match audio.data with
    | .one l =>
      pruneOneResult
        (filterIntervals (((audio.sample_rate : ℤ) * minSilenceMs) / 1000)
          (((audio.sample_rate : ℤ) * keepSilenceMs) / 1000)
          (splitRuns sil (spanTrim sil l l)) [])
    | .two c1 c2 =>
      pruneRebuild sil audio.sample_rate (meanChannels c1 c2) c1 c2
        (filterIntervals (((audio.sample_rate : ℤ) * minSilenceMs) / 1000)
          (((audio.sample_rate : ℤ) * keepSilenceMs) / 1000)
          (splitRuns sil
            (spanTrim sil (meanChannels c1 c2) (meanChannels c1 c2))) [])

lemma drop_trimLead (m : List ℚ) : m.drop (trimLead sil m) = m.dropWhile sil := by
  have h := List.takeWhile_append_dropWhile (p := sil) (l := m)
  calc m.drop (trimLead sil m)
      = (m.takeWhile sil ++ m.dropWhile sil).drop (m.takeWhile sil).length := by
        rw [h]
        rfl
    _ = m.dropWhile sil := List.drop_left _ _

lemma dropWhile_head_not_sil (l : List ℚ) (h : l.dropWhile sil ≠ []) :
    sil ((l.dropWhile sil).getD 0 0) = false := by
  induction l with
  | nil => simp at h
  | cons x xs ih =>
    by_cases hx : sil x
    · rw [List.dropWhile_cons_of_pos hx] at h ⊢
      exact ih h
    · rw [List.dropWhile_cons_of_neg hx]
      simpa using Bool.eq_false_iff.mpr hx

lemma mem_dropWhile_of_not_sil (l : List ℚ) (v : ℚ) (hv : v ∈ l)
    (hs : sil v = false) : v ∈ l.dropWhile sil := by
  induction l with
  | nil => simp at hv
  | cons x xs ih =>
    by_cases hx : sil x
    · rw [List.dropWhile_cons_of_pos hx]
      rcases List.mem_cons.mp hv with h | h
      · subst h; rw [hx] at hs; simp at hs
      · exact ih h
    · rw [List.dropWhile_cons_of_neg hx]
      exact hv

lemma spanTrim_take_form (m : List ℚ) :
    spanTrim sil m m = (m.dropWhile sil).take (trimLen sil m) := by
  unfold spanTrim
  rw [drop_trimLead]

lemma spanTrim_self_eq (m : List ℚ) :
    spanTrim sil m m = ((m.dropWhile sil).reverse.dropWhile sil).reverse := by
  rw [spanTrim_take_form]
  have htl : trimLen sil m =
      ((m.dropWhile sil).reverse.dropWhile sil).reverse.length := by
    unfold trimLen
    rw [drop_trimLead, List.length_reverse]
  rw [htl]
  have hx : m.dropWhile sil =
      ((m.dropWhile sil).reverse.dropWhile sil).reverse ++
        ((m.dropWhile sil).reverse.takeWhile sil).reverse := by
    conv_lhs => rw [← List.reverse_reverse (m.dropWhile sil)]
    rw [← List.reverse_append, List.takeWhile_append_dropWhile]
  have htk := List.take_left
    (((m.dropWhile sil).reverse.dropWhile sil).reverse)
    (((m.dropWhile sil).reverse.takeWhile sil).reverse)
  rw [← hx] at htk
  exact htk

lemma spanTrim_self_ne_nil (m : List ℚ) (v : ℚ) (hv : v ∈ m)
    (hs : sil v = false) : spanTrim sil m m ≠ [] := by
  rw [spanTrim_self_eq]
  intro hnil
  have h1 : v ∈ m.dropWhile sil := mem_dropWhile_of_not_sil sil m v hv hs
  have h2 : v ∈ (m.dropWhile sil).reverse := List.mem_reverse.mpr h1
  have h3 : v ∈ (m.dropWhile sil).reverse.dropWhile sil :=
    mem_dropWhile_of_not_sil sil _ v h2 hs
  rw [← List.reverse_reverse ((m.dropWhile sil).reverse.dropWhile sil),
    hnil] at h3
  simp at h3

lemma spanTrim_self_head (m : List ℚ) (h : spanTrim sil m m ≠ []) :
    sil ((spanTrim sil m m).getD 0 0) = false := by
  rw [spanTrim_take_form] at h ⊢
  have hpos : 0 < trimLen sil m := by
    rcases Nat.eq_zero_or_pos (trimLen sil m) with hz | hp
    · rw [hz] at h
      simp at h
    · exact hp
  have hne : m.dropWhile sil ≠ [] := by
    intro hnil
    rw [hnil] at h
    simp at h
  rw [getD_take _ _ _ hpos]
  exact dropWhile_head_not_sil sil m hne

lemma head?_getD_eq_getD (l : List ℚ) : (l.head?).getD 0 = l.getD 0 0 := by
  cases l <;> rfl

lemma getD_last_eq_getLast (l : List ℚ) :
    l.getD (l.length - 1) 0 = (l.getLast?).getD 0 := by
  rw [List.getLast?_eq_getElem?, List.getD_eq_getElem?_getD]

lemma spanTrim_self_last (m : List ℚ) (h : spanTrim sil m m ≠ []) :
    sil ((spanTrim sil m m).getD ((spanTrim sil m m).length - 1) 0) = false := by
  rw [spanTrim_self_eq] at h ⊢
  have hwne : (m.dropWhile sil).reverse.dropWhile sil ≠ [] := by
    intro hnil
    rw [hnil] at h
    simp at h
  rw [getD_last_eq_getLast, List.getLast?_reverse, head?_getD_eq_getD]
  exact dropWhile_head_not_sil sil _ hwne

lemma drop_cons_head (g xs : List ℚ) (x : ℚ) (i : ℕ)
    (h : g.drop i = x :: xs) : g.getD i 0 = x := by
  have h0 := getD_drop g i 0
  rw [h] at h0
  simpa using h0.symm

lemma drop_cons_tail (g xs : List ℚ) (x : ℚ) (i : ℕ)
    (h : g.drop i = x :: xs) : xs = g.drop (i + 1) := by
  have h1 : g.drop (i + 1) = (g.drop i).drop 1 := by
    rw [List.drop_drop]
  rw [h1, h]
  rfl

/-- Linear characterization of a run list relative to a carrier list
`z` and a left boundary `pe`: runs are ordered, in bounds, non-silent
inside, and every position outside a run (between `pe` and the next
run, between runs, and after the last run) is silent. -/
def runsRel (z : List ℚ) : ℕ → List (ℕ × ℕ) → Prop
  | pe, [] => ∀ j, pe ≤ j → j < z.length → sil (z.getD j 0) = true
  | pe, (s, e) :: rest => pe ≤ s ∧ s < e ∧ e ≤ z.length ∧
      (∀ j, pe ≤ j → j < s → sil (z.getD j 0) = true) ∧
      (∀ j, s ≤ j → j < e → sil (z.getD j 0) = false) ∧
      runsRel z e rest

/-- The chained gap condition consumed by the interval-merging loop:
every run starts past 0 and within `minS` samples of the previous end. -/
def gapsOK (minS : ℤ) : ℤ → List (ℕ × ℕ) → Prop
  | _, [] => True
  | e0, (s, e) :: rest => 0 < (s : ℤ) ∧ (s : ℤ) - e0 ≤ minS ∧ gapsOK minS (e : ℤ) rest

/-- End of the last run, with a default for an empty run list. -/
def lastEnd : ℤ → List (ℕ × ℕ) → ℤ
  | e0, [] => e0
  | _, (_, e) :: rest => lastEnd (e : ℤ) rest

/-- Every window of `W` consecutive positions of `[u, v)` contains a
non-silent sample of `z`. -/
def winOK (z : List ℚ) (W u v : ℕ) : Prop :=
  ∀ a, u ≤ a → a + W ≤ v → ∃ j, a ≤ j ∧ j < a + W ∧ sil (z.getD j 0) = false

lemma runsRel_weaken (z : List ℚ) (rs : List (ℕ × ℕ)) (pe pe' : ℕ)
    (hle : pe ≤ pe')
    (hsil : ∀ j, pe ≤ j → j < pe' → sil (z.getD j 0) = true)
    (h : runsRel sil z pe' rs) : runsRel sil z pe rs := by
  cases rs with
  | nil =>
    intro j hj1 hj2
    rcases Nat.lt_or_ge j pe' with h1 | h1
    · exact hsil j hj1 h1
    · exact h j h1 hj2
  | cons r rest =>
    obtain ⟨s, e⟩ := r
    simp only [runsRel] at h ⊢
    obtain ⟨h1, h2, h3, h4, h5, h6⟩ := h
    refine ⟨by omega, h2, h3, ?_, h5, h6⟩
    intro j hj1 hj2
    rcases Nat.lt_or_ge j pe' with hc | hc
    · exact hsil j hj1 hc
    · exact h4 j hc hj2

lemma runsAux_runsRel (z : List ℚ) : ∀ (l : List ℚ) (i : ℕ) (st : Option ℕ),
    l = z.drop i → i ≤ z.length →
    (∀ s0, st = some s0 → s0 < i ∧
      ∀ j, s0 ≤ j → j < i → sil (z.getD j 0) = false) →
    runsRel sil z (st.getD i) (runsAux sil l i st) := by
  intro l
  induction l with
  | nil =>
    intro i st hl hi hinv
    have hlen : z.length ≤ i := List.drop_eq_nil_iff.mp hl.symm
    have hiz : i = z.length := le_antisymm hi hlen
    match st with
    | none =>
      simp only [runsAux, Option.getD_none, runsRel]
      intro j hj1 hj2
      omega
    | some s0 =>
      obtain ⟨hs0, hns⟩ := hinv s0 rfl
      simp only [runsAux, Option.getD_some, runsRel]
      refine ⟨le_rfl, hs0, by omega, ?_, hns, ?_⟩
      · intro j hj1 hj2
        omega
      · intro j hj1 hj2
        omega
  | cons x xs ih =>
    intro i st hl hi hinv
    have hx : z.getD i 0 = x := drop_cons_head z xs x i hl.symm
    have hxs : xs = z.drop (i + 1) := drop_cons_tail z xs x i hl.symm
    have hi1 : i < z.length := by
      by_contra hc
      push_neg at hc
      have : z.drop i = [] := List.drop_eq_nil_of_le hc
      rw [this] at hl
      exact absurd hl (by simp)
    match st with
    | none =>
      cases hsx : sil x with
      | true =>
        have hrw : runsAux sil (x :: xs) i none =
            runsAux sil xs (i + 1) none := by
          simp [runsAux, hsx]
        simp only [Option.getD_none, hrw]
        have h2 := ih (i + 1) none hxs (by omega)
          (by intro s0 h; exact absurd h (by simp))
        simp only [Option.getD_none] at h2
        refine runsRel_weaken sil z _ i (i + 1) (by omega) ?_ h2
        intro j hj1 hj2
        have hji : j = i := by omega
        rw [hji, hx]
        exact hsx
      | false =>
        have hrw : runsAux sil (x :: xs) i none =
            runsAux sil xs (i + 1) (some i) := by
          simp [runsAux, hsx]
        simp only [Option.getD_none, hrw]
        have h2 := ih (i + 1) (some i) hxs (by omega)
          (by
            intro s0 h
            obtain hs := Option.some.inj h
            subst hs
            refine ⟨by omega, ?_⟩
            intro j hj1 hj2
            have hji : j = i := by omega
            rw [hji, hx]
            exact hsx)
        simpa using h2
    | some s0 =>
      obtain ⟨hs0, hns⟩ := hinv s0 rfl
      cases hsx : sil x with
      | true =>
        have hrw : runsAux sil (x :: xs) i (some s0) =
            (s0, i) :: runsAux sil xs (i + 1) none := by
          simp [runsAux, hsx]
        simp only [Option.getD_some, hrw, runsRel]
        have h2 := ih (i + 1) none hxs (by omega)
          (by intro s1 h; exact absurd h (by simp))
        simp only [Option.getD_none] at h2
        refine ⟨le_rfl, hs0, by omega, ?_, hns, ?_⟩
        · intro j hj1 hj2
          omega
        · refine runsRel_weaken sil z _ i (i + 1) (by omega) ?_ h2
          intro j hj1 hj2
          have hji : j = i := by omega
          rw [hji, hx]
          exact hsx
      | false =>
        have hrw : runsAux sil (x :: xs) i (some s0) =
            runsAux sil xs (i + 1) (some s0) := by
          simp [runsAux, hsx]
        simp only [Option.getD_some, hrw]
        have h2 := ih (i + 1) (some s0) hxs (by omega)
          (by
            intro s1 h
            obtain hs := Option.some.inj h
            subst hs
            refine ⟨by omega, ?_⟩
            intro j hj1 hj2
            rcases Nat.lt_or_ge j i with hc | hc
            · exact hns j hj1 hc
            · have hji : j = i := by omega
              rw [hji, hx]
              exact hsx)
        simpa using h2

lemma splitRuns_runsRel (z : List ℚ) :
    runsRel sil z 0 (splitRuns sil z) := by
  have h := runsAux_runsRel sil z z 0 none (by simp) (by omega)
    (by intro s0 h; exact absurd h (by simp))
  simpa [splitRuns] using h

lemma runsRel_head_zero (z : List ℚ) (rs : List (ℕ × ℕ))
    (h : runsRel sil z 0 rs) (hz : z ≠ [])
    (h0 : sil (z.getD 0 0) = false) :
    ∃ e rest, rs = (0, e) :: rest := by
  cases rs with
  | nil =>
    exfalso
    have := h 0 le_rfl (List.length_pos.mpr hz)
    rw [h0] at this
    simp at this
  | cons r rest =>
    obtain ⟨s, e⟩ := r
    simp only [runsRel] at h
    obtain ⟨h1, h2, h3, h4, h5, h6⟩ := h
    rcases Nat.eq_zero_or_pos s with hs | hs
    · exact ⟨e, rest, by rw [hs]⟩
    · exfalso
      have := h4 0 le_rfl hs
      rw [h0] at this
      simp at this

lemma runsRel_lastEnd (z : List ℚ)
    (hlast : sil (z.getD (z.length - 1) 0) = false) :
    ∀ (rs : List (ℕ × ℕ)) (pe : ℕ), runsRel sil z pe rs → pe ≤ z.length →
    lastEnd (pe : ℤ) rs = (z.length : ℤ) := by
  intro rs
  induction rs with
  | nil =>
    intro pe h hpe
    have hpz : pe = z.length := by
      by_contra hc
      have hlt : pe < z.length := by omega
      have := h (z.length - 1) (by omega) (by omega)
      rw [hlast] at this
      simp at this
    simp [lastEnd, hpz]
  | cons r rest ih =>
    intro pe h hpe
    obtain ⟨s, e⟩ := r
    simp only [runsRel] at h
    obtain ⟨h1, h2, h3, h4, h5, h6⟩ := h
    have hstep : lastEnd (pe : ℤ) ((s, e) :: rest) = lastEnd (e : ℤ) rest := rfl
    rw [hstep]
    exact ih e h6 h3

lemma runsRel_gapsOK (z : List ℚ) (minS : ℤ) (hms : 0 ≤ minS)
    (hwin : ∀ a, a + (minS.toNat + 1) ≤ z.length →
      ∃ j, a ≤ j ∧ j < a + (minS.toNat + 1) ∧ sil (z.getD j 0) = false) :
    ∀ (rs : List (ℕ × ℕ)) (pe : ℕ), 0 < pe → runsRel sil z pe rs →
    gapsOK minS (pe : ℤ) rs := by
  intro rs
  induction rs with
  | nil =>
    intro pe _ _
    exact trivial
  | cons r rest ih =>
    intro pe hpe h
    obtain ⟨s, e⟩ := r
    simp only [runsRel] at h
    obtain ⟨h1, h2, h3, h4, h5, h6⟩ := h
    refine ⟨by omega, ?_, ih e (by omega) h6⟩
    by_contra hc
    push_neg at hc
    obtain ⟨j, hj1, hj2, hj3⟩ := hwin pe (by omega)
    have := h4 j hj1 (by omega)
    rw [this] at hj3
    simp at hj3

lemma filterIntervals_merge_all (minS keepS : ℤ) :
    ∀ (runs : List (ℕ × ℕ)) (e0 : ℤ), gapsOK minS e0 runs →
    filterIntervals minS keepS runs [(0, e0)] =
      .ok [(0, lastEnd e0 runs)] := by
  intro runs
  induction runs with
  | nil =>
    intro e0 _
    rfl
  | cons r rest ih =>
    intro e0 hg
    obtain ⟨s, e⟩ := r
    obtain ⟨hg1, hg2, hg3⟩ := hg
    have hstep : filterIntervals minS keepS ((s, e) :: rest) [(0, e0)] =
        filterIntervals minS keepS rest [(0, (e : ℤ))] := by
      simp only [filterIntervals]
      rw [if_pos hg1, if_neg (by simp; omega)]
      rfl
    rw [hstep, ih (e : ℤ) hg3]
    rfl

lemma filterIntervals_ok_ne_nil (minS keepS : ℤ) :
    ∀ (runs : List (ℕ × ℕ)) (acc : List (ℤ × ℤ)), acc ≠ [] →
    ∃ ivs, filterIntervals minS keepS runs acc = .ok ivs ∧ ivs ≠ [] := by
  intro runs
  induction runs with
  | nil =>
    intro acc ha
    exact ⟨acc, rfl, ha⟩
  | cons r rest ih =>
    intro acc ha
    obtain ⟨s, e⟩ := r
    simp only [filterIntervals]
    by_cases h1 : (s : ℤ) > 0
    · rw [if_pos h1]
      by_cases h2 : (s : ℤ) - ((acc.getLast?.map Prod.snd).getD 0) > minS
      · rw [if_pos h2]
        exact ih _ (by simp)
      · rw [if_neg h2]
        have hgl : acc.getLast? = some (acc.getLast ha) :=
          List.getLast?_eq_getLast acc ha
        rw [hgl]
        exact ih _ (by simp)
    · rw [if_neg h1]
      exact ih _ (by simp)

/-- Invariant of the interval-filtering loop: starting from a non-empty
accumulator of well-formed intervals whose last end matches the left
boundary of the remaining runs, a successful pass returns a non-empty
list of intervals that start at 0, lie inside the carrier, end on a
non-silent sample, and contain a non-silent sample in every window of
`minS + 1` positions. -/
lemma filterIntervals_inv (minS keepS : ℤ) (z : List ℚ)
    (hk0 : 0 ≤ keepS) (hkm : keepS ≤ minS) :
    ∀ (runs : List (ℕ × ℕ)) (acc : List (ℤ × ℤ)) (pe : ℕ)
      (ivs : List (ℤ × ℤ)),
    runsRel sil z pe runs → 0 < pe →
    acc ≠ [] →
    acc.getLast?.map Prod.snd = some (pe : ℤ) →
    acc.head?.map Prod.fst = some 0 →
    (∀ iv ∈ acc, 0 ≤ iv.1 ∧ iv.1 < iv.2 ∧ iv.2 ≤ (z.length : ℤ) ∧
      sil (z.getD (iv.2 - 1).toNat 0) = false ∧
      winOK sil z (minS.toNat + 1) iv.1.toNat iv.2.toNat) →
    filterIntervals minS keepS runs acc = .ok ivs →
    ivs ≠ [] ∧ ivs.head?.map Prod.fst = some 0 ∧
    (∀ iv ∈ ivs, 0 ≤ iv.1 ∧ iv.1 < iv.2 ∧ iv.2 ≤ (z.length : ℤ) ∧
      sil (z.getD (iv.2 - 1).toNat 0) = false ∧
      winOK sil z (minS.toNat + 1) iv.1.toNat iv.2.toNat) := by
  intro runs
  induction runs with
  | nil =>
    intro acc pe ivs hrel hpe ha hlast hhead hacc hfi
    obtain hiv := Except.ok.inj hfi
    subst hiv
    exact ⟨ha, hhead, hacc⟩
  | cons r rest ih =>
    intro acc pe ivs hrel hpe ha hlast hhead hacc hfi
    obtain ⟨s, e⟩ := r
    simp only [runsRel] at hrel
    obtain ⟨hps, hse, hez, hgap, hins, hrest⟩ := hrel
    have hs0 : (s : ℤ) > 0 := by omega
    have hlgetD : ((acc.getLast?.map Prod.snd).getD 0) = (pe : ℤ) := by
      rw [hlast]
      rfl
    simp only [filterIntervals, if_pos hs0, hlgetD] at hfi
    obtain ⟨a0, t, rfl⟩ : ∃ a0 t, acc = a0 :: t := by
      cases acc with
      | nil => exact absurd rfl ha
      | cons a0 t => exact ⟨a0, t, rfl⟩
    have ha0 : a0.1 = 0 := by
      simp only [List.head?_cons, Option.map_some'] at hhead
      exact Option.some.inj hhead
    by_cases hbig : (s : ℤ) - (pe : ℤ) > minS
    · rw [if_pos hbig] at hfi
      refine ih ((a0 :: t) ++ [((s : ℤ) - keepS, (e : ℤ))]) e ivs hrest
        (by omega) (by simp) ?_ ?_ ?_ hfi
      · rw [List.getLast?_concat]
        rfl
      · simp [ha0]
      · intro iv hiv
        rcases List.mem_append.mp hiv with hmem | hmem
        · exact hacc iv hmem
        · have hiveq : iv = ((s : ℤ) - keepS, (e : ℤ)) := by
            simpa using hmem
          subst hiveq
          refine ⟨by omega, by omega, by omega, ?_, ?_⟩
          · have hidx : (((e : ℤ) : ℤ) - 1).toNat = e - 1 := by omega
            simp only [hidx]
            exact hins (e - 1) (by omega) (by omega)
          · intro a haa haw
            have hu : ((((s : ℤ) - keepS).toNat : ℤ)) = (s : ℤ) - keepS := by
              omega
            rcases Nat.lt_or_ge a s with hlt | hge
            · refine ⟨s, by omega, by omega, hins s le_rfl hse⟩
            · refine ⟨a, le_rfl, by omega, hins a hge (by omega)⟩
    · rw [if_neg hbig] at hfi
      have hgl : (a0 :: t).getLast? = some ((a0 :: t).getLast (by simp)) :=
        List.getLast?_eq_getLast _ (by simp)
      set last := (a0 :: t).getLast (by simp) with hlastdef
      rw [hgl] at hfi
      have hlpe : last.2 = (pe : ℤ) := by
        rw [hgl] at hlast
        simpa using hlast
      have hlmem : last ∈ a0 :: t :=
        List.mem_of_getLast?_eq_some hgl
      obtain ⟨hl1, hl2, hl3, hl4, hl5⟩ := hacc last hlmem
      have hfi2 : filterIntervals minS keepS rest
          ((a0 :: t).dropLast ++ [(last.1, (e : ℤ))]) = .ok ivs := hfi
      refine ih ((a0 :: t).dropLast ++ [(last.1, (e : ℤ))]) e ivs hrest
        (by omega) (by simp) ?_ ?_ ?_ hfi2
      · rw [List.getLast?_concat]
        rfl
      · cases t with
        | nil =>
          have : last = a0 := by
            rw [hlastdef]
            rfl
          simp [this, ha0]
        | cons b t' =>
          have hdl : (a0 :: b :: t').dropLast = a0 :: (b :: t').dropLast := rfl
          rw [hdl]
          simp [ha0]
      · intro iv hiv
        rcases List.mem_append.mp hiv with hmem | hmem
        · exact hacc iv ((List.dropLast_sublist _).subset hmem)
        · have hiveq : iv = (last.1, (e : ℤ)) := by
            simpa using hmem
          subst hiveq
          refine ⟨hl1, by omega, by omega, ?_, ?_⟩
          · have hidx : (((e : ℤ) : ℤ) - 1).toNat = e - 1 := by omega
            simp only [hidx]
            exact hins (e - 1) (by omega) (by omega)
          · intro a haa haw
            rcases Nat.lt_or_ge (a + (minS.toNat + 1)) pe with hc1 | hc1
            · exact hl5 a haa (by omega)
            · rcases Nat.lt_or_ge a pe with hc2 | hc2
              · refine ⟨pe - 1, by omega, by omega, ?_⟩
                have hidx2 : ((pe : ℤ) - 1).toNat = pe - 1 := by omega
                rw [← hidx2, ← hlpe]
                exact hl4
              · rcases Nat.lt_or_ge a s with hc3 | hc3
                · refine ⟨s, by omega, by omega, hins s le_rfl hse⟩
                · refine ⟨a, le_rfl, by omega, hins a hc3 (by omega)⟩

lemma concatSlices_cons (c : List ℚ) (iv : ℤ × ℤ) (rest : List (ℤ × ℤ)) :
    concatSlices c (iv :: rest) = pySlice c iv.1 iv.2 ++ concatSlices c rest :=
  rfl

lemma pySlice_clamped {α : Type} (c : List α) (u v : ℤ) (h0 : 0 ≤ u)
    (h1 : u ≤ (c.length : ℤ)) (h2 : 0 ≤ v) (h3 : v ≤ (c.length : ℤ)) :
    pySlice c u v = (c.take v.toNat).drop u.toNat := by
  unfold pySlice
  rw [if_neg (by omega), if_neg (by omega), min_eq_left h3, min_eq_left h1]

lemma pySlice_clamped_length {α : Type} (c : List α) (u v : ℤ) (h0 : 0 ≤ u)
    (huv : u ≤ v) (h3 : v ≤ (c.length : ℤ)) :
    ((pySlice c u v).length : ℤ) = v - u := by
  rw [pySlice_clamped c u v h0 (by omega) (by omega) h3]
  simp only [List.length_drop, List.length_take]
  omega

lemma pySlice_clamped_getD (c : List ℚ) (u v : ℤ) (j : ℕ) (h0 : 0 ≤ u)
    (h3 : v ≤ (c.length : ℤ)) (hj : (j : ℤ) < v - u) :
    (pySlice c u v).getD j 0 = c.getD (u.toNat + j) 0 := by
  rw [pySlice_clamped c u v h0 (by omega) (by omega) h3]
  rw [getD_drop]
  exact getD_take c v.toNat (u.toNat + j) (by omega)

/-- A kept interval's slice is non-empty, ends on a non-silent sample,
and keeps a non-silent sample in every window of `minS + 1` positions. -/
lemma chunk_props (z : List ℚ) (minS : ℤ) (u v : ℤ)
    (h1 : 0 ≤ u) (h2 : u < v) (h3 : v ≤ (z.length : ℤ))
    (hlast : sil (z.getD (v - 1).toNat 0) = false)
    (hwin : winOK sil z (minS.toNat + 1) u.toNat v.toNat) :
    pySlice z u v ≠ [] ∧
    sil ((pySlice z u v).getD ((pySlice z u v).length - 1) 0) = false ∧
    (∀ a, a + (minS.toNat + 1) ≤ (pySlice z u v).length →
      ∃ j, a ≤ j ∧ j < a + (minS.toNat + 1) ∧
        sil ((pySlice z u v).getD j 0) = false) := by
  have hlen : ((pySlice z u v).length : ℤ) = v - u :=
    pySlice_clamped_length z u v h1 (by omega) h3
  have hne : pySlice z u v ≠ [] := by
    intro hnil
    rw [hnil] at hlen
    simp at hlen
    omega
  have hpos : 0 < (pySlice z u v).length := List.length_pos.mpr hne
  refine ⟨hne, ?_, ?_⟩
  · rw [pySlice_clamped_getD z u v _ h1 h3 (by omega)]
    have hidx : u.toNat + ((pySlice z u v).length - 1) = (v - 1).toNat := by
      omega
    rw [hidx]
    exact hlast
  · intro a ha
    obtain ⟨j, hj1, hj2, hj3⟩ := hwin (u.toNat + a) (by omega) (by omega)
    refine ⟨j - u.toNat, by omega, by omega, ?_⟩
    rw [pySlice_clamped_getD z u v _ h1 h3 (by omega)]
    have hidx : u.toNat + (j - u.toNat) = j := by omega
    rw [hidx]
    exact hj3

lemma flatten_ne_nil_head (c : List ℚ) (cs : List (List ℚ)) (hc : c ≠ []) :
    (c :: cs).flatten ≠ [] := by
  simp only [List.flatten_cons]
  intro h
  rcases List.append_eq_nil.mp h with ⟨h1, _⟩
  exact hc h1

lemma flatten_getD_zero (c : List ℚ) (cs : List (List ℚ)) (hc : c ≠ []) :
    ((c :: cs).flatten).getD 0 0 = c.getD 0 0 := by
  simp only [List.flatten_cons]
  exact getD_append_left _ _ _ (List.length_pos.mpr hc)

lemma flatten_getD_last (P : ℚ → Prop) :
    ∀ (cs : List (List ℚ)), cs ≠ [] → (∀ c ∈ cs, c ≠ []) →
    (∀ c ∈ cs, P (c.getD (c.length - 1) 0)) →
    P (cs.flatten.getD (cs.flatten.length - 1) 0) := by
  intro cs
  induction cs with
  | nil =>
    intro h _ _
    exact absurd rfl h
  | cons c rest ih =>
    intro _ hne hp
    cases rest with
    | nil =>
      simp only [List.flatten_cons, List.flatten_nil, List.append_nil]
      exact hp c (by simp)
    | cons d rest' =>
      have hd : d ≠ [] := hne d (by simp)
      have hLpos : 0 < ((d :: rest').flatten).length :=
        List.length_pos.mpr (flatten_ne_nil_head d rest' hd)
      simp only [List.flatten_cons] at *
      rw [List.length_append,
        getD_append_right _ _ _ (by omega)]
      have hidx : c.length + (d ++ rest'.flatten).length - 1 - c.length =
          (d ++ rest'.flatten).length - 1 := by omega
      rw [hidx]
      have := ih (by simp)
        (fun x hx => hne x (List.mem_cons_of_mem c hx))
        (fun x hx => hp x (List.mem_cons_of_mem c hx))
      simpa using this

lemma flatten_noSilWin (W : ℕ) (hW : 0 < W) :
    ∀ (cs : List (List ℚ)),
    (∀ c ∈ cs, c ≠ [] ∧ sil (c.getD (c.length - 1) 0) = false ∧
      (∀ a, a + W ≤ c.length →
        ∃ j, a ≤ j ∧ j < a + W ∧ sil (c.getD j 0) = false)) →
    ∀ a, a + W ≤ cs.flatten.length →
    ∃ j, a ≤ j ∧ j < a + W ∧ sil (cs.flatten.getD j 0) = false := by
  intro cs
  induction cs with
  | nil =>
    intro _ a ha
    simp at ha
    omega
  | cons c rest ih =>
    intro hall a ha
    obtain ⟨hcne, hclast, hcwin⟩ := hall c (by simp)
    have hcpos : 0 < c.length := List.length_pos.mpr hcne
    simp only [List.flatten_cons] at ha ⊢
    rw [List.length_append] at ha
    rcases le_or_lt (a + W) c.length with h1 | h1
    · obtain ⟨j, hj1, hj2, hj3⟩ := hcwin a h1
      refine ⟨j, hj1, hj2, ?_⟩
      rw [getD_append_left _ _ _ (by omega)]
      exact hj3
    · rcases le_or_lt c.length a with h2 | h2
      · obtain ⟨j, hj1, hj2, hj3⟩ := ih
          (fun d hd => hall d (List.mem_cons_of_mem c hd))
          (a - c.length) (by omega)
        refine ⟨j + c.length, by omega, by omega, ?_⟩
        rw [getD_append_right _ _ _ (by omega)]
        have hidx : j + c.length - c.length = j := by omega
        rw [hidx]
        exact hj3
      · refine ⟨c.length - 1, by omega, by omega, ?_⟩
        rw [getD_append_left _ _ _ (by omega)]
        exact hclast

lemma trimLead_eq_zero (l : List ℚ) (h0 : sil (l.getD 0 0) = false) :
    trimLead sil l = 0 := by
  cases l with
  | nil => rfl
  | cons x xs =>
    unfold trimLead
    rw [List.takeWhile_cons_of_neg]
    · rfl
    · simp only [List.getD_cons_zero] at h0
      simp [h0]

lemma trimLen_eq_length (l : List ℚ)
    (h0 : sil (l.getD 0 0) = false)
    (hlast : sil (l.getD (l.length - 1) 0) = false) :
    trimLen sil l = l.length := by
  unfold trimLen
  rw [trimLead_eq_zero sil l h0, List.drop_zero]
  have hrev : l.reverse.dropWhile sil = l.reverse := by
    cases hr : l.reverse with
    | nil => rfl
    | cons y ys =>
      rw [List.dropWhile_cons_of_neg]
      have hy : l.getLast? = some y := by
        rw [← List.head?_reverse, hr]
        rfl
      rw [getD_last_eq_getLast, hy] at hlast
      simp only [Option.getD_some] at hlast
      simp [hlast]
  rw [hrev, List.length_reverse]

lemma spanTrim_id (m c : List ℚ)
    (h0 : sil (m.getD 0 0) = false)
    (hlast : sil (m.getD (m.length - 1) 0) = false)
    (hlen : c.length = m.length) :
    spanTrim sil m c = c := by
  unfold spanTrim
  rw [trimLead_eq_zero sil m h0, trimLen_eq_length sil m h0 hlast,
    List.drop_zero, ← hlen, List.take_length]

lemma meanChannels_spanTrim (m c1 c2 : List ℚ) :
    meanChannels (spanTrim sil m c1) (spanTrim sil m c2) =
      spanTrim sil m (meanChannels c1 c2) := by
  unfold spanTrim meanChannels
  rw [List.drop_zipWith, List.take_zipWith]

lemma pySlice_length_congr (c d : List ℚ) (h : c.length = d.length)
    (u v : ℤ) : (pySlice c u v).length = (pySlice d u v).length := by
  simp [pySlice, h]

lemma meanChannels_pySlice (c1 c2 : List ℚ) (hlen : c2.length = c1.length)
    (u v : ℤ) :
    meanChannels (pySlice c1 u v) (pySlice c2 u v) =
      pySlice (meanChannels c1 c2) u v := by
  have hm : (meanChannels c1 c2).length = c1.length := by
    simp [meanChannels, hlen]
  unfold pySlice
  rw [hlen, hm]
  unfold meanChannels
  rw [List.take_zipWith, List.drop_zipWith]

lemma meanChannels_concatSlices (c1 c2 : List ℚ)
    (hlen : c2.length = c1.length) :
    ∀ (ivs : List (ℤ × ℤ)),
    meanChannels (concatSlices c1 ivs) (concatSlices c2 ivs) =
      concatSlices (meanChannels c1 c2) ivs := by
  intro ivs
  induction ivs with
  | nil => rfl
  | cons iv rest ih =>
    rw [concatSlices_cons, concatSlices_cons, concatSlices_cons]
    unfold meanChannels
    rw [List.zipWith_append _ _ _ _ _
      (pySlice_length_congr c1 c2 (by omega) iv.1 iv.2)]
    have h1 := meanChannels_pySlice c1 c2 hlen iv.1 iv.2
    unfold meanChannels at h1 ih
    rw [h1, ih]

lemma concatSlices_length_congr (c d : List ℚ) (h : c.length = d.length) :
    ∀ (ivs : List (ℤ × ℤ)),
    (concatSlices c ivs).length = (concatSlices d ivs).length := by
  intro ivs
  induction ivs with
  | nil => rfl
  | cons iv rest ih =>
    rw [concatSlices_cons, concatSlices_cons, List.length_append,
      List.length_append, ih, pySlice_length_congr c d h iv.1 iv.2]

lemma concatSlices_full (c : List ℚ) :
    concatSlices c [(0, (c.length : ℤ))] = c := by
  rw [concatSlices_cons]
  show pySlice c 0 (c.length : ℤ) ++ [] = c
  rw [List.append_nil]
  rw [pySlice_clamped c 0 (c.length : ℤ) le_rfl (by omega) (by omega) le_rfl]
  simp

/-- C10: `prune_silence` returns normally only for a two-dimensional
(channels-first) sample array: on an `AudioData` wrapping a 1-D mono
array with at least one non-silent sample (and parameters passing the
validation step), the reconstruction loop's `audio_data[0, start:end]`
raises `IndexError`, so the pruner never succeeds on mono input. -/
theorem prune_silence_mono_raises (l : List ℚ) (sr : ℕ)
    (minMs keepMs : ℤ) (v : ℚ) (hk : 0 ≤ keepMs) (hmk : keepMs < minMs)
    (hv : v ∈ l) (hs : sil v = false) :
    pruneSilence sil ⟨.one l, sr⟩ minMs keepMs = .error .indexError := by
  have hval : ¬(keepMs < 0 ∨ minMs < 0 ∨ minMs ≤ keepMs) := by
    push_neg
    exact ⟨by omega, by omega, hmk⟩
  have hstep : pruneSilence sil ⟨.one l, sr⟩ minMs keepMs =
      pruneOneResult
        (filterIntervals (((sr : ℤ) * minMs) / 1000)
          (((sr : ℤ) * keepMs) / 1000)
          (splitRuns sil (spanTrim sil l l)) []) := by
    unfold pruneSilence
    rw [if_neg hval]
  rw [hstep]
  have hzne : spanTrim sil l l ≠ [] := spanTrim_self_ne_nil sil l v hv hs
  have hz0 : sil ((spanTrim sil l l).getD 0 0) = false :=
    spanTrim_self_head sil l hzne
  have hrel := splitRuns_runsRel sil (spanTrim sil l l)
  obtain ⟨e1, rest, hruns⟩ :=
    runsRel_head_zero sil (spanTrim sil l l) _ hrel hzne hz0
  rw [hruns]
  have hstep1 : filterIntervals (((sr : ℤ) * minMs) / 1000)
      (((sr : ℤ) * keepMs) / 1000) ((0, e1) :: rest) [] =
      filterIntervals (((sr : ℤ) * minMs) / 1000)
        (((sr : ℤ) * keepMs) / 1000) rest [(0, (e1 : ℤ))] := by
    simp only [filterIntervals]
    rw [if_neg (by norm_num)]
    rfl
  rw [hstep1]
  obtain ⟨ivs, hok, hne⟩ := filterIntervals_ok_ne_nil
    (((sr : ℤ) * minMs) / 1000) (((sr : ℤ) * keepMs) / 1000)
    rest [(0, (e1 : ℤ))] (by simp)
  rw [hok]
  cases ivs with
  | nil => exact absurd rfl hne
  | cons a b => rfl

/-- C7: on any stereo buffer on which the silence pruner succeeds (with
parameters passing validation), pruning the pruner's own output is a
no-op: it succeeds and returns the same samples with the same sample
rate. -/
theorem prune_silence_idempotent (c1 c2 : List ℚ) (sr : ℕ)
    (minMs keepMs : ℤ) (y : AudioData)
    (hlen : c2.length = c1.length)
    (h : pruneSilence sil ⟨.two c1 c2, sr⟩ minMs keepMs = .ok y) :
    pruneSilence sil y minMs keepMs = .ok y := by
  by_cases hval : keepMs < 0 ∨ minMs < 0 ∨ minMs ≤ keepMs
  · unfold pruneSilence at h
    rw [if_pos hval] at h
    simp at h
  · have hval' := hval
    push_neg at hval'
    obtain ⟨hk0, hm0, hkm⟩ := hval'
    obtain ⟨m, hm⟩ : ∃ x, meanChannels c1 c2 = x := ⟨_, rfl⟩
    obtain ⟨z, hz⟩ : ∃ x, spanTrim sil m m = x := ⟨_, rfl⟩
    have hkS0 : 0 ≤ ((sr : ℤ) * keepMs) / 1000 :=
      Int.ediv_nonneg (mul_nonneg (Int.natCast_nonneg sr) hk0) (by norm_num)
    have hmS0 : 0 ≤ ((sr : ℤ) * minMs) / 1000 :=
      Int.ediv_nonneg (mul_nonneg (Int.natCast_nonneg sr) hm0) (by norm_num)
    have hkmS : ((sr : ℤ) * keepMs) / 1000 ≤ ((sr : ℤ) * minMs) / 1000 :=
      Int.ediv_le_ediv (by norm_num)
        (mul_le_mul_of_nonneg_left hkm.le (Int.natCast_nonneg sr))
    have hstep : pruneSilence sil ⟨.two c1 c2, sr⟩ minMs keepMs =
        pruneRebuild sil sr m c1 c2
          (filterIntervals (((sr : ℤ) * minMs) / 1000)
            (((sr : ℤ) * keepMs) / 1000) (splitRuns sil z) []) := by
      rw [← hz, ← hm]
      unfold pruneSilence
      rw [if_neg hval]
    rw [hstep] at h
    cases hfi : filterIntervals (((sr : ℤ) * minMs) / 1000)
        (((sr : ℤ) * keepMs) / 1000) (splitRuns sil z) [] with
    | error e =>
      rw [hfi] at h
      simp [pruneRebuild] at h
    | ok ivs =>
      rw [hfi] at h
      cases ivs with
      | nil => simp [pruneRebuild] at h
      | cons iv0 ivrest =>
        have hy : (⟨.two (concatSlices (spanTrim sil m c1) (iv0 :: ivrest))
            (concatSlices (spanTrim sil m c2) (iv0 :: ivrest)), sr⟩ :
            AudioData) = y := Except.ok.inj h
        subst hy
        -- basic facts about the trimmed downmix z
        have hzne : z ≠ [] := by
          intro hznil
          rw [hznil] at hfi
          simp [splitRuns, runsAux, filterIntervals] at hfi
        have hmlen : m.length = c1.length := by
          rw [← hm]
          simp [meanChannels, hlen]
        have hz0 : sil (z.getD 0 0) = false := by
          rw [← hz]
          exact spanTrim_self_head sil m (by rw [hz]; exact hzne)
        have hzlast : sil (z.getD (z.length - 1) 0) = false := by
          rw [← hz]
          exact spanTrim_self_last sil m (by rw [hz]; exact hzne)
        have hrel : runsRel sil z 0 (splitRuns sil z) :=
          splitRuns_runsRel sil z
        obtain ⟨e1, rest, hruns⟩ :=
          runsRel_head_zero sil z _ hrel hzne hz0
        have hrelc := hrel
        rw [hruns] at hrelc
        simp only [runsRel] at hrelc
        obtain ⟨-, h0e1, he1z, -, hins1, hrest1⟩ := hrelc
        -- first step of the interval filter
        rw [hruns] at hfi
        have hstep1 : filterIntervals (((sr : ℤ) * minMs) / 1000)
            (((sr : ℤ) * keepMs) / 1000) ((0, e1) :: rest) [] =
            filterIntervals (((sr : ℤ) * minMs) / 1000)
              (((sr : ℤ) * keepMs) / 1000) rest [(0, (e1 : ℤ))] := by
          simp only [filterIntervals]
          rw [if_neg (by norm_num)]
          rfl
        rw [hstep1] at hfi
        -- the loop invariant gives the interval properties
        have hinv := filterIntervals_inv sil (((sr : ℤ) * minMs) / 1000)
          (((sr : ℤ) * keepMs) / 1000) z hkS0 hkmS rest [(0, (e1 : ℤ))] e1
          (iv0 :: ivrest) hrest1 h0e1 (by simp) (by simp) (by simp)
          (by
            intro iv hiv
            simp only [List.mem_singleton] at hiv
            subst hiv
            refine ⟨le_rfl, by omega, by omega, ?_, ?_⟩
            · have hidx : ((e1 : ℤ) - 1).toNat = e1 - 1 := by omega
              simp only [hidx]
              exact hins1 (e1 - 1) (by omega) (by omega)
            · intro a ha haw
              refine ⟨a, le_rfl, by omega, ?_⟩
              exact hins1 a (by omega) (by omega))
          hfi
        obtain ⟨-, hivhead, hivgood⟩ := hinv
        have hiv01 : iv0.1 = 0 := by simpa using hivhead
        -- the pruned downmix z'
        obtain ⟨z', hz'⟩ : ∃ x, concatSlices z (iv0 :: ivrest) = x := ⟨_, rfl⟩
        have hz'form : z' =
            ((iv0 :: ivrest).map (fun iv => pySlice z iv.1 iv.2)).flatten := by
          rw [← hz']
          rfl
        have hchunks : ∀ c ∈ (iv0 :: ivrest).map
            (fun iv => pySlice z iv.1 iv.2),
            c ≠ [] ∧ sil (c.getD (c.length - 1) 0) = false ∧
            (∀ a, a + ((((sr : ℤ) * minMs) / 1000).toNat + 1) ≤ c.length →
              ∃ j, a ≤ j ∧ j < a + ((((sr : ℤ) * minMs) / 1000).toNat + 1) ∧
                sil (c.getD j 0) = false) := by
          intro c hc
          obtain ⟨iv, hivmem, rfl⟩ := List.mem_map.mp hc
          obtain ⟨g1, g2, g3, g4, g5⟩ := hivgood iv hivmem
          exact chunk_props sil z (((sr : ℤ) * minMs) / 1000) iv.1 iv.2
            g1 g2 g3 g4 g5
        obtain ⟨g01, g02, g03, g04, g05⟩ := hivgood iv0 (by simp)
        have hc0p := chunk_props sil z (((sr : ℤ) * minMs) / 1000)
          iv0.1 iv0.2 g01 g02 g03 g04 g05
        have hz'ne : z' ≠ [] := by
          rw [hz'form, List.map_cons]
          exact flatten_ne_nil_head _ _ hc0p.1
        have hz'0 : sil (z'.getD 0 0) = false := by
          rw [hz'form, List.map_cons, flatten_getD_zero _ _ hc0p.1]
          rw [pySlice_clamped_getD z iv0.1 iv0.2 0 g01 g03 (by omega)]
          have hidx0 : iv0.1.toNat + 0 = 0 := by omega
          rw [hidx0]
          exact hz0
        have hz'last : sil (z'.getD (z'.length - 1) 0) = false := by
          rw [hz'form]
          exact flatten_getD_last (fun q => sil q = false) _ (by simp)
            (fun c hcm => (hchunks c hcm).1)
            (fun c hcm => (hchunks c hcm).2.1)
        have hz'win : ∀ a,
            a + ((((sr : ℤ) * minMs) / 1000).toNat + 1) ≤ z'.length →
            ∃ j, a ≤ j ∧ j < a + ((((sr : ℤ) * minMs) / 1000).toNat + 1) ∧
              sil (z'.getD j 0) = false := by
          rw [hz'form]
          exact flatten_noSilWin sil _ (by omega) _
            (fun c hcm => hchunks c hcm)
        -- the output channels
        obtain ⟨y1, hy1⟩ : ∃ x,
            concatSlices (spanTrim sil m c1) (iv0 :: ivrest) = x := ⟨_, rfl⟩
        obtain ⟨y2, hy2⟩ : ∃ x,
            concatSlices (spanTrim sil m c2) (iv0 :: ivrest) = x := ⟨_, rfl⟩
        rw [hy1, hy2]
        have hsp1len : (spanTrim sil m c1).length = z.length := by
          rw [← hz]
          simp [spanTrim, hmlen]
        have hsp2len : (spanTrim sil m c2).length = z.length := by
          rw [← hz]
          simp [spanTrim, hlen, hmlen]
        have hy1len : y1.length = z'.length := by
          rw [← hy1, ← hz']
          exact concatSlices_length_congr _ _
            (by rw [hsp1len]) (iv0 :: ivrest)
        have hy2len : y2.length = z'.length := by
          rw [← hy2, ← hz']
          exact concatSlices_length_congr _ _
            (by rw [hsp2len]) (iv0 :: ivrest)
        have hmean' : meanChannels y1 y2 = z' := by
          rw [← hy1, ← hy2, ← hz']
          rw [meanChannels_concatSlices _ _
            (by rw [hsp2len, hsp1len]) (iv0 :: ivrest)]
          rw [meanChannels_spanTrim sil m c1 c2, hm, hz]
        -- evaluate the second prune
        have hstep2 : pruneSilence sil ⟨.two y1 y2, sr⟩ minMs keepMs =
            pruneRebuild sil sr (meanChannels y1 y2) y1 y2
              (filterIntervals (((sr : ℤ) * minMs) / 1000)
                (((sr : ℤ) * keepMs) / 1000)
                (splitRuns sil (spanTrim sil (meanChannels y1 y2)
                  (meanChannels y1 y2))) []) := by
          unfold pruneSilence
          rw [if_neg hval]
        rw [hstep2, hmean']
        have hspz' : spanTrim sil z' z' = z' :=
          spanTrim_id sil z' z' hz'0 hz'last rfl
        rw [hspz']
        have hrel' : runsRel sil z' 0 (splitRuns sil z') :=
          splitRuns_runsRel sil z'
        obtain ⟨e1', rest', hruns'⟩ :=
          runsRel_head_zero sil z' _ hrel' hz'ne hz'0
        rw [hruns']
        have hrelc' := hrel'
        rw [hruns'] at hrelc'
        simp only [runsRel] at hrelc'
        obtain ⟨-, h0e1', he1z', -, hins1', hrest1'⟩ := hrelc'
        have hstep1' : filterIntervals (((sr : ℤ) * minMs) / 1000)
            (((sr : ℤ) * keepMs) / 1000) ((0, e1') :: rest') [] =
            filterIntervals (((sr : ℤ) * minMs) / 1000)
              (((sr : ℤ) * keepMs) / 1000) rest' [(0, (e1' : ℤ))] := by
          simp only [filterIntervals]
          rw [if_neg (by norm_num)]
          rfl
        rw [hstep1']
        have hgaps : gapsOK (((sr : ℤ) * minMs) / 1000) (e1' : ℤ) rest' :=
          runsRel_gapsOK sil z' (((sr : ℤ) * minMs) / 1000) hmS0 hz'win
            rest' e1' h0e1' hrest1'
        rw [filterIntervals_merge_all (((sr : ℤ) * minMs) / 1000)
          (((sr : ℤ) * keepMs) / 1000) rest' (e1' : ℤ) hgaps]
        have hle : lastEnd (e1' : ℤ) rest' = (z'.length : ℤ) :=
          runsRel_lastEnd sil z' hz'last rest' e1' hrest1' he1z'
        rw [hle]
        have hred : pruneRebuild sil sr z' y1 y2
            (.ok [(0, (z'.length : ℤ))]) =
            .ok ⟨.two (concatSlices (spanTrim sil z' y1)
                  [(0, (z'.length : ℤ))])
                (concatSlices (spanTrim sil z' y2)
                  [(0, (z'.length : ℤ))]), sr⟩ := rfl
        rw [hred, spanTrim_id sil z' y1 hz'0 hz'last hy1len,
          spanTrim_id sil z' y2 hz'0 hz'last hy2len]
        have hcf1 : concatSlices y1 [(0, (z'.length : ℤ))] = y1 := by
          rw [← hy1len]
          exact concatSlices_full y1
        have hcf2 : concatSlices y2 [(0, (z'.length : ℤ))] = y2 := by
          rw [← hy2len]
          exact concatSlices_full y2
        rw [hcf1, hcf2]

theorem prune_silence_idempotent_witness :
    pruneSilence (fun _ => false) ⟨NDArray.two [1] [1], 2⟩ 1000 0 =
      .ok ⟨NDArray.two [1] [1], 2⟩ :=
  prune_silence_idempotent (fun _ => false) [1] [1] 2 1000 0
    ⟨NDArray.two [1] [1], 2⟩ rfl rfl

theorem prune_silence_mono_raises_witness :
    pruneSilence (fun _ => false) ⟨NDArray.one [1], 2⟩ 1000 0 =
      .error .indexError :=
  prune_silence_mono_raises (fun _ => false) [1] 2 1000 0 1
    (by norm_num) (by norm_num) (by simp) rfl

end Prune

end AudioLoopGen
